import Mathlib

/-! nicktftp: wire codec and transfer sessions.

A shallow embedding of `main.go`.  Go strings and byte slices are lists of
bytes, `uint16` values are natural numbers kept below `65536`, a runtime panic
(index or slice out of range, nil dereference) is `none` or a crashed run.
-/

namespace NickTftp

/-- One octet of a datagram or of a Go string. -/
abbrev Byte := Fin 256

/-- Bytes of an ASCII string literal (what Go's `[]byte(s)` yields for such a literal). -/
def strBytes (s : String) : List Byte :=
  s.toList.map (fun c => ⟨c.toNat % 256, Nat.mod_lt _ (by decide)⟩)

/-! ## Constants (main.go, lines 112-144) -/

def READ : Nat := 1
def WRITE : Nat := 2
def DATA : Nat := 3
def ACK : Nat := 4
def ERR : Nat := 5

def UNK : Nat := 0
def NOT_FOUND : Nat := 1
def NO_ACCESS : Nat := 2
def DISK_FULL : Nat := 3
def ILLEGAL_OPERATION : Nat := 4
def UNKNOWN_XFER_ID : Nat := 5
def FILE_EXISTS : Nat := 6
def NO_USER_ACCESS : Nat := 7

def BUFFER_SIZE : Nat := 1024
def BLOCKSIZE : Nat := 512
def MAX_CACHE_SIZE : Nat := 1024 * 1024

/-! ## encoding/binary big-endian helpers -/

/-- Model of `binary.BigEndian.Uint16`: panics (`none`) on fewer than two bytes. -/
def Uint16 : List Byte → Option Nat
  | b0 :: b1 :: _ => some (b0.val * 256 + b1.val)
  | _ => none

/-- Model of `binary.BigEndian.PutUint16` into a fresh two-byte window. -/
def PutUint16 (v : Nat) : List Byte :=
  [⟨v / 256 % 256, Nat.mod_lt _ (by decide)⟩, ⟨v % 256, Nat.mod_lt _ (by decide)⟩]

/-! ## Request decoding (main.go, lines 13-103) -/

/-- The `Request` struct without its `client` address. -/
structure Request where
  mode : Nat := 0
  filename : List Byte := []
  opcode : Nat
  blockNum : Nat := 0
  errorMessage : List Byte := []
  errorCode : Nat := 0
  data : List Byte := []
deriving DecidableEq, Repr

/-- The `range` loop of `parseError`: `index` is the position of the head of
`rest` in `bodyData`; every NUL byte overwrites `errorMessage`. -/
def parseErrorLoop (bodyData : List Byte) : Nat → List Byte → List Byte → List Byte
  | _, errorMessage, [] => errorMessage
  | index, errorMessage, bite :: rest =>
    parseErrorLoop bodyData (index + 1)
      (if bite = 0 then bodyData.take index else errorMessage) rest

/-- Model of `parseError`: `none` when reading the code panics. -/
def parseError (bodyData : List Byte) : Option (List Byte × Nat) :=
  match Uint16 bodyData with
  | none => none
  | some errorCode =>
    let bodyData := bodyData.drop 2
    some (parseErrorLoop bodyData 0 [] bodyData, errorCode)

/-- Loop state of `parseReadWriteRequest`. -/
structure RWState where
  filename : List Byte := []
  mode : List Byte := []
  nullBytesFound : Nat := 0
  lastNullByteIndex : Nat := 0
deriving DecidableEq, Repr

/-- The `range` loop of `parseReadWriteRequest`, with its early return on a third NUL. -/
def parseReadWriteLoop (bodyData : List Byte) : Nat → RWState → List Byte → List Byte × List Byte
  | _, st, [] => (st.filename, st.mode)
  | index, st, bite :: rest =>
    if bite = 0 then
      if st.nullBytesFound = 0 then
        parseReadWriteLoop bodyData (index + 1)
          { st with filename := bodyData.take index, lastNullByteIndex := index + 1,
                    nullBytesFound := st.nullBytesFound + 1 } rest
      else if st.nullBytesFound = 1 then
        parseReadWriteLoop bodyData (index + 1)
          { st with mode := (bodyData.take index).drop st.lastNullByteIndex,
                    nullBytesFound := st.nullBytesFound + 1,
                    lastNullByteIndex := index + 1 } rest
      else ([], [])
    else parseReadWriteLoop bodyData (index + 1) st rest

/-- Model of `parseReadWriteRequest`. -/
def parseReadWriteRequest (bodyData : List Byte) : List Byte × List Byte :=
  parseReadWriteLoop bodyData 0 {} bodyData

/-- Model of `NewRequest`.  `bytesReceived` is the slice as the callers build it
(`buffer[:byteCount]`, length `byteCount`); `none` is a runtime panic.  A
`byteCount` beyond the slice length is outside this model (Go would read the
backing array up to its capacity) and is reported as `none`. -/
def NewRequest (bytesReceived : List Byte) (byteCount : Nat) : Option Request :=
  match Uint16 bytesReceived with
  | none => none
  | some opcode =>
    if byteCount < 2 ∨ bytesReceived.length < byteCount then none
    else
      let bytesReceived := (bytesReceived.take byteCount).drop 2
      if opcode = READ ∨ opcode = WRITE then
        some { opcode := opcode, filename := (parseReadWriteRequest bytesReceived).1 }
      else if opcode = ERR then
        match parseError bytesReceived with
        | none => none
        | some (errorMessage, errorCode) =>
          some { opcode := opcode, errorMessage := errorMessage, errorCode := errorCode }
      else if opcode = DATA then
        match Uint16 bytesReceived with
        | none => none
        | some blockNum =>
          some { opcode := opcode, blockNum := blockNum, data := bytesReceived.drop 2 }
      else if opcode = ACK then
        match Uint16 bytesReceived with
        | none => none
        | some blockNum => some { opcode := opcode, blockNum := blockNum }
      else
        some { opcode := opcode, errorMessage := strBytes "Illegal operation type",
               errorCode := ILLEGAL_OPERATION }

/-! ## Response encoding (main.go, lines 284-312): the bytes handed to `write` -/

/-- Model of `sendErrorResponse`: opcode, code, message and the two zero bytes
written by the final `PutUint16(errBuff[4+copied:], 0)`. -/
def sendErrorResponse (errorCode : Nat) (errorMessage : List Byte) : List Byte :=
  PutUint16 ERR ++ PutUint16 errorCode ++ errorMessage ++ PutUint16 0

/-- Model of `sendAckResponse`. -/
def sendAckResponse (blockNum : Nat) : List Byte :=
  PutUint16 ACK ++ PutUint16 blockNum

/-- Model of `sendDataResponse`. -/
def sendDataResponse (data : List Byte) (blockNumber : Nat) : List Byte :=
  PutUint16 DATA ++ PutUint16 blockNumber ++ data

/-! ## The file store (main.go, lines 105-149) -/

/-- The `File` struct; a missing key of `fileChunks` reads as Go's `nil` slice. -/
structure File where
  completed : Bool
  writing : Bool
  fileChunks : Nat → Option (List Byte)

/-- The package variables `fileCache` and `cacheSize`; `none` is a `nil` entry. -/
structure Server where
  fileCache : List Byte → Option File
  cacheSize : Nat

/-- State set up by `main` before its receive loop. -/
def Server.empty : Server := ⟨fun _ => none, 0⟩

/-- The assignment `fileCache[filename] = e`. -/
def Server.setEntry (srv : Server) (filename : List Byte) (e : Option File) : Server :=
  { srv with fileCache := fun k => if k = filename then e else srv.fileCache k }

/-- The assignment `fileChunks[blockNumber] = data` on a file. -/
def File.putChunk (f : File) (blockNumber : Nat) (data : List Byte) : File :=
  { f with fileChunks := fun k => if k = blockNumber then some data else f.fileChunks k }

/-! ## Sessions -/

/-- The pair `data := make([]byte, n); copy(data, src)`: the first `n` bytes of
`src`, zero-filled up to length `n`. -/
def makeCopy (n : Nat) (src : List Byte) : List Byte :=
  src.take n ++ List.replicate (n - src.length) 0

/-- Result of one `conn.ReadFromUDP(buffer)`: an error (the read deadline
passed) or a datagram, of which the 1024-byte buffer keeps a prefix. -/
inductive Recv where
  | err : Recv
  | datagram : List Byte → Recv
deriving DecidableEq, Repr

/-- Where a session stands once the given receive results are used up: blocked
in `ReadFromUDP` with its loop variables, returned, or stopped by a panic. -/
inductive Status (L : Type) where
  | awaiting : L → Status L
  | returned : Status L
  | crashed : Status L
deriving DecidableEq, Repr

/-- A (partial) execution: the store, the datagrams written so far in order, and the status. -/
structure Run (L : Type) where
  srv : Server
  sent : List (List Byte)
  status : Status L

/-- Local variables of the loop of `HandleWriteRequest`. -/
structure WriteLocals where
  blockNumber : Nat
  bytesReceived : Nat
  retries : Nat
deriving DecidableEq, Repr

/-- The abort paths of the write loop (lines 191-193, 198-200, 206-208):
`fileCache[filename].writing = false`, then the Error response, then return. -/
def writeAbort (filename : List Byte) (srv : Server) (errorCode : Nat)
    (errorMessage : List Byte) : Run WriteLocals :=
  match srv.fileCache filename with
  | none => ⟨srv, [], .crashed⟩
  | some f =>
    ⟨srv.setEntry filename (some { f with writing := false }),
      [sendErrorResponse errorCode errorMessage], .returned⟩

/-- Lines 227-231: `cacheSize += bytesReceived`, then the two flag updates and
return; `sent` is what the iteration wrote before. -/
def writeFinish (filename : List Byte) (srv : Server) (bytesReceived : Nat)
    (sent : List (List Byte)) : Run WriteLocals :=
  let srv := { srv with cacheSize := srv.cacheSize + bytesReceived }
  match srv.fileCache filename with
  | none => ⟨srv, sent, .crashed⟩
  | some f =>
    ⟨srv.setEntry filename (some { f with writing := false, completed := true }),
      sent, .returned⟩

/-- One iteration of the `for` loop of `HandleWriteRequest` (lines 186-233),
from `retries++` to the end of the body.  `remote == request.client` always
holds because line 196 assigns `request.client = remote`; `accepted` is the
effect of the `if` of lines 212-224 (`none` when it panics). -/
def writeStep (filename : List Byte) (srv : Server) (loc : WriteLocals) (ev : Recv) :
    Run WriteLocals :=
  let retries := loc.retries + 1
  match ev with
  | .err => writeAbort filename srv UNK (strBytes "Timeout during write operation")
  | .datagram d =>
    if retries > 5 then writeAbort filename srv UNK (strBytes "Timeout during write operation")
    else
      let buffer := d.take BUFFER_SIZE
      let byteCount := buffer.length
      match NewRequest buffer byteCount with
      | none => ⟨srv, [], .crashed⟩
      | some request =>
        if request.opcode = ERR ∨ request.errorMessage.length > 0 then
          writeAbort filename srv request.errorCode request.errorMessage
        else
          let bytesReceived := loc.bytesReceived + request.data.length
          if bytesReceived + srv.cacheSize > MAX_CACHE_SIZE then
            writeAbort filename srv DISK_FULL (strBytes "Disk is full")
          else
            let accepted : Option (Server × List (List Byte) × Nat × Nat) :=
              if request.opcode = DATA ∧ request.blockNum = loc.blockNumber then
                match srv.fileCache filename with
                | none => none
                | some f =>
                  if byteCount < 4 then none
                  else
                    let data := makeCopy (byteCount - 4) request.data
                    some (srv.setEntry filename (some (f.putChunk loc.blockNumber data)),
                      [sendAckResponse loc.blockNumber], (loc.blockNumber + 1) % 65536, 0)
              else some (srv, [], loc.blockNumber, retries)
            match accepted with
            | none => ⟨srv, [], .crashed⟩
            | some (srv, sent, blockNumber, retries) =>
              if request.data.length < BLOCKSIZE then writeFinish filename srv bytesReceived sent
              else ⟨srv, sent, .awaiting ⟨blockNumber, bytesReceived, retries⟩⟩

/-- The loop of `HandleWriteRequest` driven by the receive results in order. -/
def writeLoop (filename : List Byte) : Server → WriteLocals → List Recv → Run WriteLocals
  | srv, loc, [] => ⟨srv, [], .awaiting loc⟩
  | srv, loc, ev :: evs =>
    let r := writeStep filename srv loc ev
    match r.status with
    | .awaiting loc' =>
      let r' := writeLoop filename r.srv loc' evs
      ⟨r'.srv, r.sent ++ r'.sent, r'.status⟩
    | _ => r

/-- Model of `HandleWriteRequest` for the request's `filename`. -/
def HandleWriteRequest (filename : List Byte) (srv : Server) (evs : List Recv) :
    Run WriteLocals :=
  let start (srv : Server) : Run WriteLocals :=
    let srv := srv.setEntry filename (some ⟨false, true, fun _ => none⟩)
    let r := writeLoop filename srv ⟨1, 0, 0⟩ evs
    ⟨r.srv, sendAckResponse 0 :: r.sent, r.status⟩
  match srv.fileCache filename with
  | some f =>
    if f.writing ∧ ¬ f.completed then
      ⟨srv, [sendErrorResponse FILE_EXISTS (strBytes "File is currently being written")],
        .returned⟩
    else if f.completed then
      ⟨srv, [sendErrorResponse FILE_EXISTS (strBytes "File already exists on server")],
        .returned⟩
    else start (srv.setEntry filename none)
  | none => start srv

/-- The loop of `HandleReadRequest` (lines 254-279) from the lookup of the
current block.  Every iteration looks the block up, sends it and then
receives; with no receive result left the session is blocked in `ReadFromUDP`. -/
def readLoop (filename : List Byte) (srv : Server) : Nat → List Recv → Run Nat
  | blockNumber, [] =>
    match srv.fileCache filename with
    | none => ⟨srv, [], .crashed⟩
    | some f =>
      match f.fileChunks blockNumber with
      | none => ⟨srv, [], .returned⟩
      | some bytes => ⟨srv, [sendDataResponse bytes blockNumber], .awaiting blockNumber⟩
  | blockNumber, ev :: evs =>
    match srv.fileCache filename with
    | none => ⟨srv, [], .crashed⟩
    | some f =>
      match f.fileChunks blockNumber with
      | none => ⟨srv, [], .returned⟩
      | some bytes =>
        let data := sendDataResponse bytes blockNumber
        match ev with
        | .err =>
          ⟨srv, [data, sendErrorResponse UNK (strBytes "Error reading during read operation")],
            .returned⟩
        | .datagram d =>
          let buffer := d.take BUFFER_SIZE
          match NewRequest buffer buffer.length with
          | none => ⟨srv, [data], .crashed⟩
          | some request =>
            if request.opcode = ACK ∧ request.blockNum = blockNumber then
              let r := readLoop filename srv ((blockNumber + 1) % 65536) evs
              ⟨r.srv, data :: r.sent, r.status⟩
            else if request.opcode = ERR then
              ⟨srv, [data, sendErrorResponse request.errorCode request.errorMessage], .returned⟩
            else ⟨srv, [data], .returned⟩

/-- Model of `HandleReadRequest` for the request's `filename`. -/
def HandleReadRequest (filename : List Byte) (srv : Server) (evs : List Recv) : Run Nat :=
  match srv.fileCache filename with
  | none => ⟨srv, [sendErrorResponse NOT_FOUND (strBytes "File not found on server")], .returned⟩
  | some f =>
    if ¬ f.completed then
      ⟨srv, [sendErrorResponse NOT_FOUND (strBytes "File not found on server")], .returned⟩
    else readLoop filename srv 1 evs

/-! ## Client behaviour used to state the session claims -/

/-- The datagrams of a client that sends Data(n, p₁), Data(n+1, p₂), … in order. -/
def dataEvents : Nat → List (List Byte) → List Recv
  | _, [] => []
  | n, p :: ps => .datagram (sendDataResponse p n) :: dataEvents (n + 1) ps

/-- The datagrams of a client that sends Ack(n), Ack(n+1), …, `count` of them. -/
def ackEvents : Nat → Nat → List Recv
  | _, 0 => []
  | n, count + 1 => .datagram (sendAckResponse n) :: ackEvents (n + 1) count

/-- The Data messages Data(n, p₁), Data(n+1, p₂), … as `sendDataResponse` writes them. -/
def dataMessages : Nat → List (List Byte) → List (List Byte)
  | _, [] => []
  | n, p :: ps => sendDataResponse p n :: dataMessages (n + 1) ps

/-- The datagrams of a client that sends Data(m, q) for each pair `(m, q)` of the list. -/
def dataEventsOf (ms : List (Nat × List Byte)) : List Recv :=
  ms.map (fun x => .datagram (sendDataResponse x.2 x.1))

/-- The store after write sessions run one after the other from the store set
up by `main`, each given by its filename and what its socket receives. -/
def runWrites : List (List Byte × List Recv) → Server
  | [] => Server.empty
  | s :: rest => (HandleWriteRequest s.1 (runWrites rest) s.2).srv

/-- Every chunk of the file has at most `BUFFER_SIZE - 4` bytes. -/
def FileBounded (f : File) : Prop :=
  ∀ b c, f.fileChunks b = some c → c.length ≤ BUFFER_SIZE - 4

/-- Every chunk of every entry of the store has at most `BUFFER_SIZE - 4` bytes. -/
def ChunksBounded (srv : Server) : Prop :=
  ∀ k f, srv.fileCache k = some f → FileBounded f

/-! ## Codec lemmas -/

theorem Uint16_PutUint16 (v : Nat) (h : v < 65536) (rest : List Byte) :
    Uint16 (PutUint16 v ++ rest) = some v := by
  simp only [PutUint16, List.cons_append, List.nil_append, Uint16, Option.some.injEq]
  omega

theorem length_PutUint16 (v : Nat) : (PutUint16 v).length = 2 := rfl

theorem drop_PutUint16 (v : Nat) (rest : List Byte) : (PutUint16 v ++ rest).drop 2 = rest := rfl

/-- When the scanned bytes end in a NUL, the loop of `parseError` returns the
prefix of the body that stops at that last NUL. -/
theorem parseErrorLoop_append_nul (bodyData : List Byte) :
    ∀ (rest : List Byte) (index : Nat) (acc : List Byte),
      parseErrorLoop bodyData index acc (rest ++ [0]) = bodyData.take (index + rest.length) := by
  intro rest
  induction rest with
  | nil => intro index acc; simp [parseErrorLoop]
  | cons b tl ih =>
    intro index acc
    show parseErrorLoop bodyData (index + 1) _ (tl ++ [0]) = _
    rw [ih, List.length_cons, show index + 1 + tl.length = index + (tl.length + 1) by omega]

/-- Without a NUL in the scanned bytes the loop of `parseError` keeps its accumulator. -/
theorem parseErrorLoop_no_nul (bodyData : List Byte) :
    ∀ (rest : List Byte) (index : Nat) (acc : List Byte), (0 : Byte) ∉ rest →
      parseErrorLoop bodyData index acc rest = acc := by
  intro rest
  induction rest with
  | nil => intro index acc _; rfl
  | cons b tl ih =>
    intro index acc h
    have hb : b ≠ 0 := fun e => h (by simp [e])
    have ht : (0 : Byte) ∉ tl := fun e => h (by simp [e])
    simp [parseErrorLoop, hb, ih _ _ ht]

/-- Decoding of an Error datagram whose body is a code, any bytes and a last NUL. -/
theorem NewRequest_error_nul (code : Nat) (h : code < 65536) (text : List Byte) :
    NewRequest (PutUint16 ERR ++ PutUint16 code ++ text ++ [0])
        (PutUint16 ERR ++ PutUint16 code ++ text ++ [0]).length
      = some { opcode := ERR, errorCode := code, errorMessage := text } := by
  have h1 : Uint16 (PutUint16 ERR ++ PutUint16 code ++ text ++ [0]) = some ERR := by
    rw [List.append_assoc, List.append_assoc]
    exact Uint16_PutUint16 ERR (by decide) _
  have h2 : ((PutUint16 ERR ++ PutUint16 code ++ text ++ [0]).take
      (PutUint16 ERR ++ PutUint16 code ++ text ++ [0]).length).drop 2
        = PutUint16 code ++ (text ++ [0]) := by
    rw [List.take_length]; simp [PutUint16]
  have h3 : parseError (PutUint16 code ++ (text ++ [0])) = some (text, code) := by
    unfold parseError
    rw [Uint16_PutUint16 code h]
    simp only [drop_PutUint16, parseErrorLoop_append_nul, Nat.zero_add, Option.some.injEq,
      Prod.mk.injEq, and_true]
    simp
  unfold NewRequest
  rw [h1]
  simp only [h2, h3]
  simp [PutUint16, ERR, READ, WRITE]

/-- Decoding of a Data datagram in the wire format of `sendDataResponse`. -/
theorem NewRequest_data (blockNumber : Nat) (h : blockNumber < 65536) (data : List Byte) :
    NewRequest (sendDataResponse data blockNumber) (sendDataResponse data blockNumber).length
      = some { opcode := DATA, blockNum := blockNumber, data := data } := by
  have h1 : Uint16 (sendDataResponse data blockNumber) = some DATA := by
    unfold sendDataResponse
    rw [List.append_assoc]
    exact Uint16_PutUint16 DATA (by decide) _
  have h2 : ((sendDataResponse data blockNumber).take
      (sendDataResponse data blockNumber).length).drop 2 = PutUint16 blockNumber ++ data := by
    rw [List.take_length]; simp [sendDataResponse, PutUint16]
  unfold NewRequest
  rw [h1]
  simp only [h2, Uint16_PutUint16 blockNumber h, drop_PutUint16]
  simp [sendDataResponse, PutUint16, ERR, READ, WRITE, DATA]

/-- Decoding of an Acknowledgment datagram in the wire format of `sendAckResponse`. -/
theorem NewRequest_ack (blockNum : Nat) (h : blockNum < 65536) :
    NewRequest (sendAckResponse blockNum) (sendAckResponse blockNum).length
      = some { opcode := ACK, blockNum := blockNum } := by
  have h1 : Uint16 (sendAckResponse blockNum) = some ACK :=
    Uint16_PutUint16 ACK (by decide) _
  have h2 : ((sendAckResponse blockNum).take (sendAckResponse blockNum).length).drop 2
      = PutUint16 blockNum ++ [] := by
    rw [List.take_length]; simp [sendAckResponse, PutUint16]
  unfold NewRequest
  rw [h1]
  simp only [h2, Uint16_PutUint16 blockNum h]
  simp [sendAckResponse, PutUint16, ERR, READ, WRITE, DATA, ACK]

theorem length_sendDataResponse (data : List Byte) (blockNumber : Nat) :
    (sendDataResponse data blockNumber).length = data.length + 4 := by
  simp [sendDataResponse, PutUint16]

theorem length_sendAckResponse (blockNum : Nat) : (sendAckResponse blockNum).length = 4 := rfl

/-! ## Codec claims -/

/-- C1, the defect: the round trip of `sendErrorResponse` through `NewRequest`
does not give back the message.  For code DISK_FULL and the message `A` the
datagram is 0, 5, 0, 3, 65, 0, 0 and the decoded message is `A` followed by a
NUL byte; for the message of `TestParseErr` the datagram has 21 bytes, one more
than the test's, and the decoded message again ends in a NUL byte. -/
theorem error_roundtrip_keeps_nul :
    (sendErrorResponse DISK_FULL [65]).map Fin.val = [0, 5, 0, 3, 65, 0, 0]
    ∧ NewRequest (sendErrorResponse DISK_FULL [65]) (sendErrorResponse DISK_FULL [65]).length
        = some { opcode := ERR, errorCode := DISK_FULL, errorMessage := [65, 0] }
    ∧ (sendErrorResponse DISK_FULL (strBytes "456789111111111")).length = 21
    ∧ NewRequest (sendErrorResponse DISK_FULL (strBytes "456789111111111"))
        (sendErrorResponse DISK_FULL (strBytes "456789111111111")).length
        = some { opcode := ERR, errorCode := DISK_FULL,
                 errorMessage := strBytes "456789111111111" ++ [0] } :=
  ⟨by decide, by decide, by decide, by decide⟩

/-- Extent of that defect: for every error code and message, what `NewRequest`
decodes from the bytes of `sendErrorResponse` is the message with a NUL byte
appended, because the datagram ends in two zero bytes and `parseError` cuts at
the last one. -/
theorem sendErrorResponse_decoded (code : Nat) (message : List Byte) (hcode : code < 65536) :
    NewRequest (sendErrorResponse code message) (sendErrorResponse code message).length
      = some { opcode := ERR, errorCode := code, errorMessage := message ++ [0] } := by
  have e : sendErrorResponse code message
      = PutUint16 ERR ++ PutUint16 code ++ (message ++ [0]) ++ [0] := by
    simp [sendErrorResponse, PutUint16]
  rw [e]
  exact NewRequest_error_nul code hcode (message ++ [0])

/-- C6, the defect: `NewRequest` panics on every one-byte datagram (which passes
the dispatcher's `byteCount <= 0` guard) and on Data, Acknowledgment and Error
datagrams whose body is shorter than its two-byte field, instead of returning a
request with code ILLEGAL_OPERATION. -/
theorem NewRequest_short_datagram_panics :
    (∀ b : Byte, NewRequest [b] 1 = none)
      ∧ NewRequest [0, 3, 7] 3 = none
      ∧ NewRequest [0, 4] 2 = none
      ∧ NewRequest [0, 5, 1] 3 = none :=
  ⟨fun _ => rfl, by decide, by decide, by decide⟩

/-- C7: a datagram whose first two bytes decode to an opcode outside 1..5 makes
`NewRequest` return (no panic) a request with error code ILLEGAL_OPERATION = 4
and the message "Illegal operation type", whatever bytes follow. -/
theorem NewRequest_unrecognized_opcode (d : List Byte) (opcode : Nat)
    (hop : Uint16 d = some opcode) (hout : opcode < 1 ∨ 5 < opcode) :
    NewRequest d d.length
        = some { opcode := opcode, errorMessage := strBytes "Illegal operation type",
                 errorCode := ILLEGAL_OPERATION }
      ∧ ILLEGAL_OPERATION = 4 := by
  refine ⟨?_, rfl⟩
  have hlen : 2 ≤ d.length := by
    match d, hop with
    | _ :: _ :: _, _ => simp
  unfold NewRequest
  rw [hop]
  have h1 : ¬ (d.length < 2 ∨ d.length < d.length) := by omega
  have h2 : ¬ (opcode = READ ∨ opcode = WRITE) := by simp only [READ, WRITE]; omega
  have h3 : ¬ opcode = ERR := by simp only [ERR]; omega
  have h4 : ¬ opcode = DATA := by simp only [DATA]; omega
  have h5 : ¬ opcode = ACK := by simp only [ACK]; omega
  simp only [h1, h2, h3, h4, h5, if_false]

theorem NewRequest_unrecognized_opcode_witness :
    NewRequest [0, 9, 1, 2, 3] 5
        = some { opcode := 9, errorMessage := strBytes "Illegal operation type",
                 errorCode := ILLEGAL_OPERATION }
      ∧ ILLEGAL_OPERATION = 4 :=
  NewRequest_unrecognized_opcode [0, 9, 1, 2, 3] 9 (by decide) (by decide)

/-- Bytes without a NUL are skipped by the loop of `parseReadWriteRequest`. -/
theorem parseReadWriteLoop_skip (bodyData : List Byte) :
    ∀ (pre rest : List Byte) (index : Nat) (st : RWState), (0 : Byte) ∉ pre →
      parseReadWriteLoop bodyData index st (pre ++ rest)
        = parseReadWriteLoop bodyData (index + pre.length) st rest := by
  intro pre
  induction pre with
  | nil => intro rest index st _; rfl
  | cons b tl ih =>
    intro rest index st h
    have hb : b ≠ 0 := fun e => h (by simp [e])
    have ht : (0 : Byte) ∉ tl := fun e => h (by simp [e])
    show parseReadWriteLoop bodyData index st (b :: (tl ++ rest)) = _
    rw [parseReadWriteLoop, if_neg hb, ih rest (index + 1) st ht, List.length_cons,
      show index + 1 + tl.length = index + (tl.length + 1) by omega]

/-- Once the NUL bytes seen and those ahead add up to three, the loop of
`parseReadWriteRequest` returns the empty pair. -/
theorem parseReadWriteLoop_three_nul (bodyData : List Byte) :
    ∀ (rest : List Byte) (index : Nat) (st : RWState),
      st.nullBytesFound ≤ 2 → 3 ≤ st.nullBytesFound + rest.count 0 →
      parseReadWriteLoop bodyData index st rest = ([], []) := by
  intro rest
  induction rest with
  | nil =>
    intro index st h2 h3
    simp only [List.count_nil] at h3
    omega
  | cons b tl ih =>
    intro index st h2 h3
    by_cases hb : b = 0
    · subst hb
      simp only [List.count_cons_self] at h3
      rw [parseReadWriteLoop, if_pos rfl]
      by_cases h0 : st.nullBytesFound = 0
      · rw [if_pos h0]
        exact ih _ _ (by simp only [h0]; omega) (by simp only [h0]; omega)
      · rw [if_neg h0]
        by_cases h1 : st.nullBytesFound = 1
        · rw [if_pos h1]
          exact ih _ _ (by simp only [h1]; omega) (by simp only [h1]; omega)
        · rw [if_neg h1]
    · have hc : List.count 0 (b :: tl) = List.count 0 tl :=
        List.count_cons_of_ne (fun e => hb e.symm) tl
      rw [hc] at h3
      rw [parseReadWriteLoop, if_neg hb]
      exact ih _ _ h2 h3

/-- The body `f, NUL, m, NUL` parses to the pair `(f, m)`. -/
theorem parseReadWriteRequest_two_strings (f m : List Byte)
    (hf : (0 : Byte) ∉ f) (hm : (0 : Byte) ∉ m) :
    parseReadWriteRequest (f ++ [0] ++ m ++ [0]) = (f, m) := by
  unfold parseReadWriteRequest
  have e : f ++ [0] ++ m ++ [0] = f ++ (0 :: (m ++ [0])) := by simp
  rw [e, parseReadWriteLoop_skip _ f _ 0 {} hf, parseReadWriteLoop, if_pos rfl]
  simp only [if_true, Nat.zero_add]
  rw [parseReadWriteLoop_skip _ m [0] _ _ hm, parseReadWriteLoop, if_pos rfl]
  simp only [Nat.zero_add, Nat.reduceAdd, OfNat.ofNat_ne_zero, if_false, if_true,
    parseReadWriteLoop]
  refine Prod.ext ?_ ?_
  · simp
  · simp only
    rw [show f ++ (0 :: (m ++ [0])) = (f ++ [0] ++ m) ++ [0] by simp,
      List.take_append_of_le_length (by simp; omega),
      List.take_of_length_le (by simp; omega)]
    simp

/-! ## Store lemmas -/

@[simp] theorem setEntry_same (srv : Server) (filename : List Byte) (e : Option File) :
    (srv.setEntry filename e).fileCache filename = e := by
  simp [Server.setEntry]

theorem setEntry_other (srv : Server) (filename k : List Byte) (e : Option File)
    (h : k ≠ filename) : (srv.setEntry filename e).fileCache k = srv.fileCache k := by
  simp [Server.setEntry, h]

@[simp] theorem setEntry_cacheSize (srv : Server) (filename : List Byte) (e : Option File) :
    (srv.setEntry filename e).cacheSize = srv.cacheSize := rfl

theorem makeCopy_self (src : List Byte) : makeCopy src.length src = src := by
  simp [makeCopy]

/-! ## One iteration of the write loop on a Data datagram -/

/-- What the write loop sees of a Data datagram that fits the receive buffer. -/
theorem take_buffer_data (p : List Byte) (n : Nat) (hp : p.length ≤ 1020) :
    (sendDataResponse p n).take BUFFER_SIZE = sendDataResponse p n := by
  apply List.take_of_length_le
  rw [length_sendDataResponse]
  simp only [BUFFER_SIZE]
  omega

theorem NewRequest_data_len (blockNumber : Nat) (h : blockNumber < 65536) (data : List Byte) :
    NewRequest (sendDataResponse data blockNumber) (data.length + 4)
      = some { opcode := DATA, blockNum := blockNumber, data := data } := by
  have e := NewRequest_data blockNumber h data
  rwa [length_sendDataResponse] at e

/-- A Data datagram with the expected block number and a full-size payload is
stored and acknowledged, and the loop goes on with the next block number. -/
theorem writeStep_accept_full (filename : List Byte) (srv : Server) (f : File)
    (b r retries : Nat) (p : List Byte) (hf : srv.fileCache filename = some f)
    (hb : b < 65536) (hp : BLOCKSIZE ≤ p.length) (hp2 : p.length ≤ 1020) (hr : retries < 5)
    (hcap : r + p.length + srv.cacheSize ≤ MAX_CACHE_SIZE) :
    writeStep filename srv ⟨b, r, retries⟩ (.datagram (sendDataResponse p b))
      = ⟨srv.setEntry filename (some (f.putChunk b p)), [sendAckResponse b],
          .awaiting ⟨(b + 1) % 65536, r + p.length, 0⟩⟩ := by
  unfold writeStep
  simp only [take_buffer_data p b hp2, length_sendDataResponse, NewRequest_data_len b hb p, hf]
  have h1 : ¬ (retries + 1 > 5) := by omega
  have h2 : ¬ (r + p.length + srv.cacheSize > MAX_CACHE_SIZE) := by omega
  have h3 : ¬ (p.length + 4 < 4) := by omega
  have h4 : ¬ (p.length < BLOCKSIZE) := by omega
  simp [h1, h2, h3, h4, DATA, ERR, makeCopy_self]

/-- A Data datagram with the expected block number and a short payload is
stored and acknowledged, and the session finishes the file. -/
theorem writeStep_accept_last (filename : List Byte) (srv : Server) (f : File)
    (b r retries : Nat) (p : List Byte) (hf : srv.fileCache filename = some f)
    (hb : b < 65536) (hp : p.length < BLOCKSIZE) (hr : retries < 5)
    (hcap : r + p.length + srv.cacheSize ≤ MAX_CACHE_SIZE) :
    writeStep filename srv ⟨b, r, retries⟩ (.datagram (sendDataResponse p b))
      = writeFinish filename (srv.setEntry filename (some (f.putChunk b p)))
          (r + p.length) [sendAckResponse b] := by
  have hp2 : p.length ≤ 1020 := by simp only [BLOCKSIZE] at hp; omega
  unfold writeStep
  simp only [take_buffer_data p b hp2, length_sendDataResponse, NewRequest_data_len b hb p, hf]
  have h1 : ¬ (retries + 1 > 5) := by omega
  have h2 : ¬ (r + p.length + srv.cacheSize > MAX_CACHE_SIZE) := by omega
  have h3 : ¬ (p.length + 4 < 4) := by omega
  simp [h1, h2, h3, hp, DATA, ERR, makeCopy_self]

/-- A Data datagram with another block number and a full-size payload changes
nothing but the byte and retry counters. -/
theorem writeStep_ignore_full (filename : List Byte) (srv : Server)
    (b r retries n : Nat) (p : List Byte)
    (hn : n < 65536) (hne : n ≠ b) (hp : BLOCKSIZE ≤ p.length) (hp2 : p.length ≤ 1020)
    (hr : retries < 5) (hcap : r + p.length + srv.cacheSize ≤ MAX_CACHE_SIZE) :
    writeStep filename srv ⟨b, r, retries⟩ (.datagram (sendDataResponse p n))
      = ⟨srv, [], .awaiting ⟨b, r + p.length, retries + 1⟩⟩ := by
  unfold writeStep
  simp only [take_buffer_data p n hp2, length_sendDataResponse, NewRequest_data_len n hn p]
  have h1 : ¬ (retries + 1 > 5) := by omega
  have h2 : ¬ (r + p.length + srv.cacheSize > MAX_CACHE_SIZE) := by omega
  have h4 : ¬ (p.length < BLOCKSIZE) := by omega
  simp [h1, h2, h4, hne, DATA, ERR]

/-! ## The write loop over several datagrams -/

theorem writeLoop_cons_awaiting (filename : List Byte) (srv srv1 : Server)
    (loc loc1 : WriteLocals) (sent1 : List (List Byte)) (ev : Recv) (evs : List Recv)
    (h : writeStep filename srv loc ev = ⟨srv1, sent1, .awaiting loc1⟩) :
    writeLoop filename srv loc (ev :: evs)
      = ⟨(writeLoop filename srv1 loc1 evs).srv, sent1 ++ (writeLoop filename srv1 loc1 evs).sent,
          (writeLoop filename srv1 loc1 evs).status⟩ := by
  simp only [writeLoop, h]

theorem writeLoop_cons_returned (filename : List Byte) (srv : Server)
    (loc : WriteLocals) (ev : Recv) (evs : List Recv)
    (h : (writeStep filename srv loc ev).status = .returned) :
    writeLoop filename srv loc (ev :: evs) = writeStep filename srv loc ev := by
  simp only [writeLoop, h]

theorem writeLoop_cons_crashed (filename : List Byte) (srv : Server)
    (loc : WriteLocals) (ev : Recv) (evs : List Recv)
    (h : (writeStep filename srv loc ev).status = .crashed) :
    writeLoop filename srv loc (ev :: evs) = writeStep filename srv loc ev := by
  simp only [writeLoop, h]

/-- In-order transfer from inside the loop: with the entry present, block
number `b` expected and retry counter 0, the datagrams Data(b, p₁), …, of which
all but the last are full and the last is short, are all stored and
acknowledged and the file is finished. -/
theorem writeLoop_in_order (filename : List Byte) :
    ∀ (full : List (List Byte)) (last : List Byte) (srv : Server) (f : File) (b r : Nat),
      srv.fileCache filename = some f →
      (∀ p ∈ full, p.length = BLOCKSIZE) → last.length < BLOCKSIZE →
      b + full.length < 65536 →
      r + ((full ++ [last]).map List.length).sum + srv.cacheSize ≤ MAX_CACHE_SIZE →
      (writeLoop filename srv ⟨b, r, 0⟩ (dataEvents b (full ++ [last]))).status = .returned
      ∧ (writeLoop filename srv ⟨b, r, 0⟩ (dataEvents b (full ++ [last]))).sent
          = (List.range' b (full.length + 1)).map sendAckResponse
      ∧ (writeLoop filename srv ⟨b, r, 0⟩ (dataEvents b (full ++ [last]))).srv.cacheSize
          = srv.cacheSize + (r + ((full ++ [last]).map List.length).sum)
      ∧ (∀ k, k ≠ filename →
          (writeLoop filename srv ⟨b, r, 0⟩ (dataEvents b (full ++ [last]))).srv.fileCache k
            = srv.fileCache k)
      ∧ ∃ g, (writeLoop filename srv ⟨b, r, 0⟩ (dataEvents b (full ++ [last]))).srv.fileCache
              filename = some g
          ∧ g.completed = true ∧ g.writing = false
          ∧ ∀ k, g.fileChunks k
              = if b ≤ k ∧ k < b + (full.length + 1) then (full ++ [last])[k - b]?
                else f.fileChunks k := by
  intro full
  induction full with
  | nil =>
    intro last srv f b r hf _ hlast hb hcap
    simp only [List.nil_append, List.map_cons, List.map_nil, List.sum_cons, List.sum_nil,
      Nat.add_zero, List.length_nil] at hb hcap ⊢
    have hstep := writeStep_accept_last filename srv f b r 0 last hf hb hlast (by decide)
      (by omega)
    have hfin : (writeStep filename srv ⟨b, r, 0⟩ (.datagram (sendDataResponse last b))).status
        = .returned := by
      rw [hstep]; simp [writeFinish]
    simp only [dataEvents]
    rw [writeLoop_cons_returned _ _ _ _ _ hfin, hstep]
    simp only [writeFinish, setEntry_same]
    refine ⟨trivial, by simp [List.range'], by simp, fun k hk => ?_, _, rfl, rfl, rfl,
      fun k => ?_⟩
    · simp [Server.setEntry, hk]
    · by_cases hk : k = b
      · subst hk; simp [File.putChunk]
      · have : ¬ (b ≤ k ∧ k < b + 1) := by omega
        simp [File.putChunk, hk, this]
  | cons p tl ih =>
    intro last srv f b r hf hfull hlast hb hcap
    have hp : p.length = BLOCKSIZE := hfull p (by simp)
    have htl : ∀ q ∈ tl, q.length = BLOCKSIZE := fun q hq => hfull q (by simp [hq])
    simp only [List.cons_append, List.map_cons, List.sum_cons, List.length_cons] at hb hcap ⊢
    have hstep := writeStep_accept_full filename srv f b r 0 p hf (by omega) (by omega)
      (by simp only [BLOCKSIZE] at hp; omega) (by decide) (by omega)
    rw [Nat.mod_eq_of_lt (by omega : b + 1 < 65536)] at hstep
    simp only [dataEvents]
    rw [writeLoop_cons_awaiting _ _ _ _ _ _ _ _ hstep]
    obtain ⟨h1, h2, h3, h4, g, h5, h6, h7, h8⟩ :=
      ih last (srv.setEntry filename (some (f.putChunk b p))) (f.putChunk b p) (b + 1)
        (r + p.length) (setEntry_same _ _ _) htl hlast (by omega)
        (by simp only [setEntry_cacheSize]; omega)
    refine ⟨h1, ?_, ?_, fun k hk => ?_, g, h5, h6, h7, fun k => ?_⟩
    · simp only [h2, List.range', List.map_cons, List.singleton_append]
    · simp only [h3, setEntry_cacheSize]; omega
    · rw [h4 k hk, setEntry_other _ _ _ _ hk]
    · rw [h8 k]
      by_cases hk : k = b
      · subst hk
        have : ¬ (k + 1 ≤ k ∧ k < k + 1 + (tl.length + 1)) := by omega
        simp [File.putChunk, this]
      · by_cases hlt : b + 1 ≤ k ∧ k < b + 1 + (tl.length + 1)
        · have h' : b ≤ k ∧ k < b + (tl.length + 1 + 1) := by omega
          obtain ⟨j, rfl⟩ : ∃ j, k = b + 1 + j := ⟨k - (b + 1), by omega⟩
          simp only [hlt, h', and_self, if_true]
          rw [show b + 1 + j - (b + 1) = j by omega, show b + 1 + j - b = j + 1 by omega]
          simp
        · have h' : ¬ (b ≤ k ∧ k < b + (tl.length + 1 + 1)) := by omega
          simp [hlt, h', File.putChunk, hk]

theorem sum_length_full (full : List (List Byte)) (h : ∀ p ∈ full, p.length = BLOCKSIZE) :
    (full.map List.length).sum = BLOCKSIZE * full.length := by
  induction full with
  | nil => rfl
  | cons p tl ih =>
    have hp : p.length = BLOCKSIZE := h p (by simp)
    have htl : ∀ q ∈ tl, q.length = BLOCKSIZE := fun q hq => h q (by simp [hq])
    simp only [List.map_cons, List.sum_cons, List.length_cons, ih htl, hp]
    ring

/-- Number of full blocks that fit under the capacity ceiling. -/
theorem full_blocks_bound (full : List (List Byte)) (last : List Byte) (c : Nat)
    (h : ∀ p ∈ full, p.length = BLOCKSIZE)
    (hcap : c + ((full ++ [last]).map List.length).sum ≤ MAX_CACHE_SIZE) :
    full.length ≤ 2048 := by
  simp only [List.map_append, List.sum_append, sum_length_full full h, BLOCKSIZE,
    MAX_CACHE_SIZE] at hcap
  omega

/-- A whole write session fed the blocks in order, from a store without an entry
for the file: the run returns, the responses are Ack(0), …, Ack(N), the file is
completed with exactly the chunks received, and the counter grows by their size. -/
theorem HandleWriteRequest_in_order (filename : List Byte) (srv : Server)
    (full : List (List Byte)) (last : List Byte)
    (hnew : srv.fileCache filename = none)
    (hfull : ∀ p ∈ full, p.length = BLOCKSIZE) (hlast : last.length < BLOCKSIZE)
    (hcap : srv.cacheSize + ((full ++ [last]).map List.length).sum ≤ MAX_CACHE_SIZE) :
    (HandleWriteRequest filename srv (dataEvents 1 (full ++ [last]))).status = .returned
    ∧ (HandleWriteRequest filename srv (dataEvents 1 (full ++ [last]))).sent
        = (List.range (full.length + 2)).map sendAckResponse
    ∧ (HandleWriteRequest filename srv (dataEvents 1 (full ++ [last]))).srv.cacheSize
        = srv.cacheSize + ((full ++ [last]).map List.length).sum
    ∧ ∃ g, (HandleWriteRequest filename srv (dataEvents 1 (full ++ [last]))).srv.fileCache
            filename = some g
        ∧ g.completed = true ∧ g.writing = false
        ∧ ∀ k, g.fileChunks k = if k = 0 then none else (full ++ [last])[k - 1]? := by
  have hN := full_blocks_bound full last srv.cacheSize hfull hcap
  obtain ⟨h1, h2, h3, -, g, h5, h6, h7, h8⟩ :=
    writeLoop_in_order filename full last
      (srv.setEntry filename (some ⟨false, true, fun _ => none⟩)) ⟨false, true, fun _ => none⟩
      1 0 (setEntry_same _ _ _) hfull hlast (by omega)
      (by simp only [setEntry_cacheSize]; omega)
  simp only [HandleWriteRequest, hnew]
  refine ⟨h1, ?_, ?_, g, h5, h6, h7, fun k => ?_⟩
  · rw [h2, List.range_eq_range', List.range'_succ (s := 0)]
    simp
  · rw [h3]; simp
  · rw [h8 k]
    by_cases hk : k = 0
    · subst hk; simp
    · by_cases hlt : k < 1 + (full.length + 1)
      · have : 1 ≤ k ∧ k < 1 + (full.length + 1) := by omega
        simp [hk, this]
      · have h' : ¬ (1 ≤ k ∧ k < 1 + (full.length + 1)) := by omega
        have : (full ++ [last]).length ≤ k - 1 := by simp; omega
        simp [hk, h', List.getElem?_eq_none this]

/-! ## The read loop with an acknowledging client -/

theorem take_buffer_ack (n : Nat) :
    (sendAckResponse n).take BUFFER_SIZE = sendAckResponse n :=
  List.take_of_length_le (by rw [length_sendAckResponse]; decide)

/-- With chunks `ps` stored from block `b` on (block numbers taken modulo 65536) and
none after them, a client that acknowledges every block gets exactly the Data
messages of `ps`, and the loop returns whatever arrives later. -/
theorem readLoop_acked (filename : List Byte) (srv : Server) (f : File)
    (hf : srv.fileCache filename = some f) (rest : List Recv) :
    ∀ (ps : List (List Byte)) (b : Nat), b + ps.length ≤ 65536 →
      (∀ i, i < ps.length → f.fileChunks ((b + i) % 65536) = ps[i]?) →
      f.fileChunks ((b + ps.length) % 65536) = none →
      readLoop filename srv (b % 65536) (ackEvents b ps.length ++ rest)
        = ⟨srv, dataMessages b ps, .returned⟩ := by
  intro ps
  induction ps with
  | nil =>
    intro b _ _ hend
    simp only [List.length_nil, Nat.add_zero] at hend
    cases rest <;> simp [readLoop, ackEvents, hf, hend, dataMessages]
  | cons p tl ih =>
    intro b hb hch hend
    simp only [List.length_cons] at hb hend
    have hb' : b % 65536 = b := Nat.mod_eq_of_lt (by omega)
    have h0 : f.fileChunks b = some p := by
      have := hch 0 (by simp)
      simpa [hb'] using this
    have hrec := ih (b + 1) (by omega)
      (fun i hi => by
        have := hch (i + 1) (by simp only [List.length_cons]; omega)
        rw [show b + 1 + i = b + (i + 1) by omega, this]
        simp)
      (by rw [show b + 1 + tl.length = b + (tl.length + 1) by omega]; exact hend)
    have hreq : NewRequest (sendAckResponse b) 4 = some { opcode := ACK, blockNum := b } :=
      NewRequest_ack b (by omega)
    rw [hb']
    simp only [List.length_cons, ackEvents, List.cons_append, readLoop, hf, h0,
      take_buffer_ack, length_sendAckResponse, hreq, dataMessages]
    simp [hrec]

/-- While acknowledgments are still missing the read loop is blocked waiting
for the next one, having sent one Data message more than it got acknowledgments. -/
theorem readLoop_partial (filename : List Byte) (srv : Server) (f : File)
    (hf : srv.fileCache filename = some f) :
    ∀ (j : Nat) (ps : List (List Byte)) (b : Nat), j < ps.length → b + ps.length ≤ 65536 →
      (∀ i, i < ps.length → f.fileChunks ((b + i) % 65536) = ps[i]?) →
      readLoop filename srv (b % 65536) (ackEvents b j)
        = ⟨srv, dataMessages b (ps.take (j + 1)), .awaiting (b + j)⟩ := by
  intro j
  induction j with
  | zero =>
    intro ps b hj hb hch
    have hb' : b % 65536 = b := Nat.mod_eq_of_lt (by omega)
    obtain ⟨p, tl, rfl⟩ : ∃ p tl, ps = p :: tl := by
      cases ps with
      | nil => simp at hj
      | cons p tl => exact ⟨p, tl, rfl⟩
    have h0 : f.fileChunks b = some p := by
      have := hch 0 (by simp)
      simpa [hb'] using this
    rw [hb']
    simp [readLoop, hf, h0, ackEvents, dataMessages]
  | succ j ih =>
    intro ps b hj hb hch
    have hb' : b % 65536 = b := Nat.mod_eq_of_lt (by omega)
    obtain ⟨p, tl, rfl⟩ : ∃ p tl, ps = p :: tl := by
      cases ps with
      | nil => simp at hj
      | cons p tl => exact ⟨p, tl, rfl⟩
    simp only [List.length_cons] at hj hb
    have h0 : f.fileChunks b = some p := by
      have := hch 0 (by simp)
      simpa [hb'] using this
    have hrec := ih tl (b + 1) (by omega) (by omega)
      (fun i hi => by
        have := hch (i + 1) (by simp only [List.length_cons]; omega)
        rw [show b + 1 + i = b + (i + 1) by omega, this]
        simp)
    have hreq : NewRequest (sendAckResponse b) 4 = some { opcode := ACK, blockNum := b } :=
      NewRequest_ack b (by omega)
    rw [hb']
    simp only [ackEvents, readLoop, hf, h0, take_buffer_ack, length_sendAckResponse, hreq,
      dataMessages, List.take_succ_cons]
    simp [hrec]
    omega

theorem drop_header_dataMessages : ∀ (ps : List (List Byte)) (b : Nat),
    (dataMessages b ps).map (List.drop 4) = ps := by
  intro ps
  induction ps with
  | nil => intro b; rfl
  | cons p tl ih =>
    intro b
    simp only [dataMessages, List.map_cons, ih]
    rfl

/-- Read session over a completed entry whose chunks at blocks 1, 2, … are `ps`
and which has no chunk at the following block number. -/
theorem HandleReadRequest_acked (filename : List Byte) (srv : Server) (f : File)
    (ps : List (List Byte)) (hf : srv.fileCache filename = some f)
    (hc : f.completed = true) (hN : ps.length ≤ 65535)
    (hchunks : ∀ i, i < ps.length → f.fileChunks (i + 1) = ps[i]?)
    (hend : f.fileChunks ((ps.length + 1) % 65536) = none) :
    HandleReadRequest filename srv (ackEvents 1 ps.length)
      = ⟨srv, dataMessages 1 ps, .returned⟩ := by
  have h := readLoop_acked filename srv f hf [] ps 1 (by omega)
    (fun i hi => by
      rw [Nat.mod_eq_of_lt (by omega : 1 + i < 65536), Nat.add_comm]
      exact hchunks i hi)
    (by rw [Nat.add_comm]; exact hend)
  simp only [List.append_nil] at h
  simp only [HandleReadRequest, hf, hc]
  exact h

/-! ## Invariants of a running write session -/

theorem setEntry_setEntry (srv : Server) (filename : List Byte) (e e' : Option File) :
    (srv.setEntry filename e).setEntry filename e' = srv.setEntry filename e' := by
  simp only [Server.setEntry]
  congr 1
  funext k
  by_cases hk : k = filename <;> simp [hk]

/-- An iteration after which the loop goes on leaves the counter, the flags of
the session's entry and every other entry as they were. -/
theorem writeStep_awaiting (filename : List Byte) (srv : Server) (loc loc' : WriteLocals)
    (ev : Recv) (f : File) (hf : srv.fileCache filename = some f)
    (h : (writeStep filename srv loc ev).status = .awaiting loc') :
    (writeStep filename srv loc ev).srv.cacheSize = srv.cacheSize
    ∧ (∀ k, k ≠ filename → (writeStep filename srv loc ev).srv.fileCache k = srv.fileCache k)
    ∧ ∃ f', (writeStep filename srv loc ev).srv.fileCache filename = some f'
        ∧ f'.completed = f.completed ∧ f'.writing = f.writing := by
  cases ev with
  | err => simp [writeStep, writeAbort, hf] at h
  | datagram d =>
    unfold writeStep at h ⊢
    simp only [hf] at h ⊢
    generalize d.take BUFFER_SIZE = buffer at h ⊢
    by_cases h1 : loc.retries + 1 > 5
    · simp only [h1, if_true, writeAbort, hf] at h
      cases h
    · simp only [h1, if_false] at h ⊢
      cases hreq : NewRequest buffer buffer.length with
      | none =>
        simp only [hreq] at h
        cases h
      | some request =>
        simp only [hreq] at h ⊢
        by_cases h2 : request.opcode = ERR ∨ request.errorMessage.length > 0
        · simp only [h2, if_true, writeAbort, hf] at h
          cases h
        · simp only [h2, if_false] at h ⊢
          by_cases h3 : loc.bytesReceived + request.data.length + srv.cacheSize > MAX_CACHE_SIZE
          · simp only [h3, if_true, writeAbort, hf] at h
            cases h
          · simp only [h3, if_false] at h ⊢
            by_cases h4 : request.opcode = DATA ∧ request.blockNum = loc.blockNumber
            · simp only [h4, and_self, if_true] at h ⊢
              by_cases h5 : buffer.length < 4
              · simp only [h5, if_true] at h
                cases h
              · simp only [h5, if_false] at h ⊢
                by_cases h6 : request.data.length < BLOCKSIZE
                · simp only [h6, if_true, writeFinish, setEntry_same] at h
                  cases h
                · simp only [h6, if_false]
                  exact ⟨rfl, fun k hk => setEntry_other _ _ _ _ hk, _, setEntry_same _ _ _,
                    rfl, rfl⟩
            · simp only [h4, if_false] at h ⊢
              by_cases h6 : request.data.length < BLOCKSIZE
              · simp only [h6, if_true, writeFinish, hf] at h
                cases h
              · simp only [h6, if_false]
                exact ⟨trivial, fun k _ => trivial, f, hf, rfl, rfl⟩

/-- The loop over `evs` followed by one more receive result. -/
theorem writeLoop_append_one (filename : List Byte) (ev : Recv) :
    ∀ (evs : List Recv) (srv : Server) (loc loc' : WriteLocals),
      (writeLoop filename srv loc evs).status = .awaiting loc' →
      writeLoop filename srv loc (evs ++ [ev])
        = ⟨(writeStep filename (writeLoop filename srv loc evs).srv loc' ev).srv,
            (writeLoop filename srv loc evs).sent
              ++ (writeStep filename (writeLoop filename srv loc evs).srv loc' ev).sent,
            (writeStep filename (writeLoop filename srv loc evs).srv loc' ev).status⟩ := by
  intro evs
  induction evs with
  | nil =>
    intro srv loc loc' h
    simp only [writeLoop, Status.awaiting.injEq] at h
    subst h
    simp only [List.nil_append, writeLoop, List.append_nil]
    split <;> simp_all [writeLoop]
  | cons e tl ih =>
    intro srv loc loc' h
    simp only [List.cons_append, writeLoop, List.append_eq] at h ⊢
    split at h
    · rename_i loc1 hst
      simp only [hst] at h ⊢
      rw [ih _ _ _ h]
      simp
    · rename_i hne
      exact absurd h (hne loc')

/-- While the loop is still running, the counter is the one it started with and
the session's entry is present with unchanged flags. -/
theorem writeLoop_awaiting (filename : List Byte) :
    ∀ (evs : List Recv) (srv : Server) (loc loc' : WriteLocals) (f : File),
      srv.fileCache filename = some f →
      (writeLoop filename srv loc evs).status = .awaiting loc' →
      (writeLoop filename srv loc evs).srv.cacheSize = srv.cacheSize
      ∧ (∀ k, k ≠ filename → (writeLoop filename srv loc evs).srv.fileCache k = srv.fileCache k)
      ∧ ∃ f', (writeLoop filename srv loc evs).srv.fileCache filename = some f'
          ∧ f'.completed = f.completed ∧ f'.writing = f.writing := by
  intro evs
  induction evs with
  | nil =>
    intro srv loc loc' f hf _
    exact ⟨rfl, fun _ _ => rfl, f, hf, rfl, rfl⟩
  | cons e tl ih =>
    intro srv loc loc' f hf h
    simp only [writeLoop] at h ⊢
    split at h
    · rename_i loc1 hst
      simp only [hst] at h ⊢
      obtain ⟨a1, a2, f1, a3, a4, a5⟩ := writeStep_awaiting filename srv loc loc1 e f hf hst
      obtain ⟨b1, b2, f2, b3, b4, b5⟩ := ih _ _ _ f1 a3 h
      exact ⟨b1.trans a1, fun k hk => (b2 k hk).trans (a2 k hk), f2, b3, b4.trans a4,
        b5.trans a5⟩
    · rename_i hne
      exact absurd h (hne loc')

/-- A write request that is not turned down as a conflict runs the loop on the
store with a fresh entry, after Ack(0). -/
theorem HandleWriteRequest_started (filename : List Byte) (srv : Server)
    (hfree : ∀ f, srv.fileCache filename = some f → f.writing = false ∧ f.completed = false)
    (evs : List Recv) :
    HandleWriteRequest filename srv evs
      = ⟨(writeLoop filename (srv.setEntry filename (some ⟨false, true, fun _ => none⟩))
            ⟨1, 0, 0⟩ evs).srv,
          sendAckResponse 0 ::
            (writeLoop filename (srv.setEntry filename (some ⟨false, true, fun _ => none⟩))
              ⟨1, 0, 0⟩ evs).sent,
          (writeLoop filename (srv.setEntry filename (some ⟨false, true, fun _ => none⟩))
            ⟨1, 0, 0⟩ evs).status⟩ := by
  unfold HandleWriteRequest
  cases hf : srv.fileCache filename with
  | none => rfl
  | some f =>
    obtain ⟨hw, hc⟩ := hfree f hf
    simp [hw, hc, setEntry_setEntry]

/-- A write request whose session is still running was not turned down. -/
theorem HandleWriteRequest_awaiting_free (filename : List Byte) (srv : Server)
    (evs : List Recv) (loc : WriteLocals)
    (h : (HandleWriteRequest filename srv evs).status = .awaiting loc) :
    ∀ f, srv.fileCache filename = some f → f.writing = false ∧ f.completed = false := by
  intro f hf
  unfold HandleWriteRequest at h
  simp only [hf] at h
  by_cases hc : f.completed = true
  · by_cases hw : f.writing = true <;> simp [hc, hw] at h
  · by_cases hw : f.writing = true
    · simp [hc, hw] at h
    · simp at hc hw; exact ⟨hw, hc⟩

/-! ## Session claims -/

/-- C2: from a store with no entry for the file, a write session that receives
Data(1,p₁), …, Data(N,p_N) in order, all but the last of 512 bytes, the last
shorter, the total within the capacity left, returns with the entry completed,
not writing, holding exactly the chunks i ↦ pᵢ, after sending exactly
Ack(0), Ack(1), …, Ack(N). -/
theorem write_session_in_order (filename : List Byte) (srv : Server)
    (full : List (List Byte)) (last : List Byte)
    (hnew : srv.fileCache filename = none)
    (hfull : ∀ p ∈ full, p.length = 512) (hlast : last.length < 512)
    (hcap : srv.cacheSize + ((full ++ [last]).map List.length).sum ≤ 1048576) :
    (HandleWriteRequest filename srv (dataEvents 1 (full ++ [last]))).status = .returned
    ∧ (HandleWriteRequest filename srv (dataEvents 1 (full ++ [last]))).sent
        = (List.range (full.length + 2)).map sendAckResponse
    ∧ ∃ g, (HandleWriteRequest filename srv (dataEvents 1 (full ++ [last]))).srv.fileCache
            filename = some g
        ∧ g.completed = true ∧ g.writing = false
        ∧ ∀ k, g.fileChunks k = if k = 0 then none else (full ++ [last])[k - 1]? := by
  obtain ⟨h1, h2, -, h4⟩ :=
    HandleWriteRequest_in_order filename srv full last hnew hfull hlast hcap
  exact ⟨h1, h2, h4⟩

theorem write_session_in_order_witness :
    (HandleWriteRequest [102] Server.empty
        (dataEvents 1 ([List.replicate 512 7] ++ [[97, 98]]))).status = .returned
    ∧ (HandleWriteRequest [102] Server.empty
        (dataEvents 1 ([List.replicate 512 7] ++ [[97, 98]]))).sent
        = (List.range (1 + 2)).map sendAckResponse
    ∧ ∃ g, (HandleWriteRequest [102] Server.empty
        (dataEvents 1 ([List.replicate 512 7] ++ [[97, 98]]))).srv.fileCache [102] = some g
        ∧ g.completed = true ∧ g.writing = false
        ∧ ∀ k, g.fileChunks k
            = if k = 0 then none else ([List.replicate 512 7] ++ [[97, 98]])[k - 1]? :=
  write_session_in_order [102] Server.empty [List.replicate 512 7] [97, 98] rfl
    (fun p hp => by
      rw [List.mem_singleton] at hp
      rw [hp, List.length_replicate])
    (by decide)
    (by
      simp only [Server.empty, List.singleton_append, List.map_cons, List.map_nil,
        List.sum_cons, List.sum_nil, List.length_replicate, List.length_cons,
        List.length_nil]
      decide)

/-- C4: for a completed file with chunks `ps` at blocks 1..N and none at the
next block number, a client that answers the k-th Data message with Ack(k) makes
`HandleReadRequest` send exactly Data(1, chunk 1), …, Data(N, chunk N) in this
order and return (nothing else is sent, the store is unchanged); as long as
fewer than N acknowledgments have arrived the session is still waiting. -/
theorem read_session_full_transfer (filename : List Byte) (srv : Server) (f : File)
    (ps : List (List Byte)) (hf : srv.fileCache filename = some f)
    (hc : f.completed = true) (hN : ps.length ≤ 65535)
    (hchunks : ∀ i, i < ps.length → f.fileChunks (i + 1) = ps[i]?)
    (hend : f.fileChunks ((ps.length + 1) % 65536) = none) :
    HandleReadRequest filename srv (ackEvents 1 ps.length)
        = ⟨srv, dataMessages 1 ps, .returned⟩
    ∧ ∀ j, j < ps.length →
        (HandleReadRequest filename srv (ackEvents 1 j)).status = .awaiting (j + 1) := by
  refine ⟨HandleReadRequest_acked filename srv f ps hf hc hN hchunks hend, fun j hj => ?_⟩
  have h := readLoop_partial filename srv f hf j ps 1 hj (by omega)
    (fun i hi => by
      rw [Nat.mod_eq_of_lt (by omega : 1 + i < 65536), Nat.add_comm]
      exact hchunks i hi)
  simp only [HandleReadRequest, hf, hc]
  rw [show (1 : Nat) % 65536 = 1 from rfl] at h
  rw [h, Nat.add_comm]
  simp

theorem read_session_full_transfer_witness :
    HandleReadRequest [102]
        (Server.empty.setEntry [102]
          (some ⟨true, false, fun k => if k = 1 then some [97] else none⟩))
        (ackEvents 1 [[97]].length)
      = ⟨Server.empty.setEntry [102]
          (some ⟨true, false, fun k => if k = 1 then some [97] else none⟩),
          dataMessages 1 [[97]], .returned⟩
    ∧ ∀ j, j < [[(97 : Byte)]].length →
        (HandleReadRequest [102]
          (Server.empty.setEntry [102]
            (some ⟨true, false, fun k => if k = 1 then some [97] else none⟩))
          (ackEvents 1 j)).status = .awaiting (j + 1) :=
  read_session_full_transfer [102] _ ⟨true, false, fun k => if k = 1 then some [97] else none⟩
    [[97]] rfl rfl (by decide)
    (fun i hi => by
      have : i = 0 := by simpa using hi
      subst this; rfl)
    rfl

/-- C5: after a write session that took the blocks p₁, …, p_N in order (as in
C2), a read session for the same file with a client acknowledging each block
sends exactly Data(1,p₁), …, Data(N,p_N) and returns; the payloads after the
4-byte headers are p₁, …, p_N in order. -/
theorem write_then_read (filename : List Byte) (srv : Server)
    (full : List (List Byte)) (last : List Byte)
    (hnew : srv.fileCache filename = none)
    (hfull : ∀ p ∈ full, p.length = 512) (hlast : last.length < 512)
    (hcap : srv.cacheSize + ((full ++ [last]).map List.length).sum ≤ 1048576) :
    HandleReadRequest filename
        (HandleWriteRequest filename srv (dataEvents 1 (full ++ [last]))).srv
        (ackEvents 1 (full.length + 1))
      = ⟨(HandleWriteRequest filename srv (dataEvents 1 (full ++ [last]))).srv,
          dataMessages 1 (full ++ [last]), .returned⟩
    ∧ (dataMessages 1 (full ++ [last])).map (List.drop 4) = full ++ [last] := by
  have hN := full_blocks_bound full last srv.cacheSize hfull hcap
  obtain ⟨-, -, -, g, hg, hc, -, hch⟩ :=
    HandleWriteRequest_in_order filename srv full last hnew hfull hlast hcap
  refine ⟨?_, drop_header_dataMessages _ _⟩
  have hlen : (full ++ [last]).length = full.length + 1 := by simp
  have h := HandleReadRequest_acked filename _ g (full ++ [last]) hg hc (by omega)
    (fun i _ => by rw [hch]; simp)
    (by
      rw [hlen, Nat.mod_eq_of_lt (by omega : full.length + 1 + 1 < 65536), hch]
      simp)
  rw [hlen] at h
  exact h

theorem write_then_read_witness :
    HandleReadRequest [102]
        (HandleWriteRequest [102] Server.empty
          (dataEvents 1 ([List.replicate 512 7] ++ [[97, 98]]))).srv
        (ackEvents 1 (1 + 1))
      = ⟨(HandleWriteRequest [102] Server.empty
          (dataEvents 1 ([List.replicate 512 7] ++ [[97, 98]]))).srv,
          dataMessages 1 ([List.replicate 512 7] ++ [[97, 98]]), .returned⟩
    ∧ (dataMessages 1 ([List.replicate 512 7] ++ [[97, 98]])).map (List.drop 4)
        = [List.replicate 512 7] ++ [[97, 98]] :=
  write_then_read [102] Server.empty [List.replicate 512 7] [97, 98] rfl
    (fun p hp => by
      rw [List.mem_singleton] at hp
      rw [hp, List.length_replicate])
    (by decide)
    (by
      simp only [Server.empty, List.singleton_append, List.map_cons, List.map_nil,
        List.sum_cons, List.sum_nil, List.length_replicate, List.length_cons,
        List.length_nil]
      decide)

/-- C3, the defect: a session awaiting block 1 that receives Data(2, p) with a
one-byte payload does not ignore it: it records no chunk and sends no
acknowledgment, but it marks the entry completed and returns, so a later
Data(1, p) is never read. -/
theorem wrong_block_short_data_completes :
    (HandleWriteRequest [102] Server.empty
        [.datagram (sendDataResponse [97] 2), .datagram (sendDataResponse [98] 1)]).status
      = .returned
    ∧ (HandleWriteRequest [102] Server.empty
        [.datagram (sendDataResponse [97] 2), .datagram (sendDataResponse [98] 1)]).sent
      = [sendAckResponse 0]
    ∧ ∃ g, (HandleWriteRequest [102] Server.empty
        [.datagram (sendDataResponse [97] 2), .datagram (sendDataResponse [98] 1)]).srv.fileCache
          [102] = some g
        ∧ g.completed = true ∧ g.writing = false ∧ ∀ k, g.fileChunks k = none :=
  ⟨by decide, by decide, _, rfl, rfl, rfl, fun _ => rfl⟩

/-- C8, the defect: from the empty store, a write session that receives an
Acknowledgment datagram as its first message marks the entry completed although
no Data message was accepted and the entry has no chunk at all. -/
theorem completed_without_accepted_block :
    (HandleWriteRequest [102] Server.empty [.datagram (sendAckResponse 0)]).status = .returned
    ∧ ∃ g, (HandleWriteRequest [102] Server.empty
        [.datagram (sendAckResponse 0)]).srv.fileCache [102] = some g
        ∧ g.completed = true ∧ ∀ k, g.fileChunks k = none :=
  ⟨by decide, _, rfl, rfl, fun _ => rfl⟩

set_option maxRecDepth 100000 in
/-- C9 as stated is refuted: with the counter at 1046016, a session that has
ignored five full-size Data(2, …) datagrams is waiting with 2560 bytes counted
and retry counter 5; the following Data(1, p) with a one-byte payload would
bring the total to 1048577, but the session answers it with the timeout Error
of code 0, not with DISK_FULL. -/
theorem overflow_after_five_ignored_times_out :
    (HandleWriteRequest [102] ⟨fun _ => none, 1046016⟩
        (dataEventsOf (List.replicate 5 (2, List.replicate 512 7)))).status
      = .awaiting ⟨1, 2560, 5⟩
    ∧ 2560 + [(97 : Byte)].length + 1046016 > 1048576
    ∧ (HandleWriteRequest [102] ⟨fun _ => none, 1046016⟩
        (dataEventsOf (List.replicate 5 (2, List.replicate 512 7))
          ++ [.datagram (sendDataResponse [97] 1)])).sent
      = [sendAckResponse 0, sendErrorResponse UNK (strBytes "Timeout during write operation")]
    ∧ (HandleWriteRequest [102] ⟨fun _ => none, 1046016⟩
        (dataEventsOf (List.replicate 5 (2, List.replicate 512 7))
          ++ [.datagram (sendDataResponse [97] 1)])).status = .returned
    ∧ UNK = 0 :=
  ⟨rfl, by decide, rfl, rfl, rfl⟩

/-- C9 amended: in a running write session whose retry budget is not used up
(retry counter below 5 before the read, that is fewer than five datagrams
ignored since the last accepted block), a datagram that decodes to a request
other than an Error and makes `bytesReceived + cacheSize` exceed 1048576 ends
the session with exactly one more response, Error DISK_FULL (3); no chunk is
recorded, the entry is left with writing=false and completed=false, and the
counter and all other entries are unchanged. -/
theorem write_capacity_rejection (filename : List Byte) (srv : Server) (evs : List Recv)
    (loc : WriteLocals) (d : List Byte) (request : Request)
    (hrun : (HandleWriteRequest filename srv evs).status = .awaiting loc)
    (hretry : loc.retries < 5)
    (hdec : NewRequest (d.take BUFFER_SIZE) (d.take BUFFER_SIZE).length = some request)
    (hnoerr : ¬ (request.opcode = ERR ∨ request.errorMessage.length > 0))
    (hover : loc.bytesReceived + request.data.length
        + (HandleWriteRequest filename srv evs).srv.cacheSize > 1048576) :
    (HandleWriteRequest filename srv (evs ++ [.datagram d])).status = .returned
    ∧ (HandleWriteRequest filename srv (evs ++ [.datagram d])).sent
        = (HandleWriteRequest filename srv evs).sent
            ++ [sendErrorResponse 3 (strBytes "Disk is full")]
    ∧ (HandleWriteRequest filename srv (evs ++ [.datagram d])).srv.cacheSize
        = (HandleWriteRequest filename srv evs).srv.cacheSize
    ∧ (∀ k, k ≠ filename →
        (HandleWriteRequest filename srv (evs ++ [.datagram d])).srv.fileCache k
          = (HandleWriteRequest filename srv evs).srv.fileCache k)
    ∧ ∃ f f', (HandleWriteRequest filename srv evs).srv.fileCache filename = some f
        ∧ (HandleWriteRequest filename srv (evs ++ [.datagram d])).srv.fileCache filename
            = some f'
        ∧ f'.writing = false ∧ f'.completed = false ∧ f'.fileChunks = f.fileChunks := by
  have hfree := HandleWriteRequest_awaiting_free filename srv evs loc hrun
  rw [HandleWriteRequest_started filename srv hfree] at hrun hover ⊢
  rw [HandleWriteRequest_started filename srv hfree]
  simp only at hrun hover ⊢
  obtain ⟨-, -, f, hf, hc, -⟩ := writeLoop_awaiting filename evs _ _ _ _
    (setEntry_same srv filename (some ⟨false, true, fun _ => none⟩)) hrun
  have hstep : writeStep filename
      (writeLoop filename (srv.setEntry filename (some ⟨false, true, fun _ => none⟩))
        ⟨1, 0, 0⟩ evs).srv loc (.datagram d)
      = ⟨(writeLoop filename (srv.setEntry filename (some ⟨false, true, fun _ => none⟩))
            ⟨1, 0, 0⟩ evs).srv.setEntry filename (some { f with writing := false }),
          [sendErrorResponse DISK_FULL (strBytes "Disk is full")], .returned⟩ := by
    unfold writeStep
    have h1 : ¬ (loc.retries + 1 > 5) := by omega
    have h3 : loc.bytesReceived + request.data.length
        + (writeLoop filename (srv.setEntry filename (some ⟨false, true, fun _ => none⟩))
            ⟨1, 0, 0⟩ evs).srv.cacheSize > MAX_CACHE_SIZE := hover
    simp only [h1, if_false, hdec, hnoerr, h3, if_true, writeAbort, hf]
  rw [writeLoop_append_one filename (.datagram d) evs _ _ _ hrun, hstep]
  refine ⟨rfl, by simp [DISK_FULL], rfl, fun k hk => setEntry_other _ _ _ _ hk, f, _, hf,
    setEntry_same _ _ _, rfl, hc, rfl⟩

theorem write_capacity_rejection_witness :
    (HandleWriteRequest [102] ⟨fun _ => none, 1048576⟩
        ([] ++ [.datagram (sendDataResponse [97] 1)])).status = .returned
    ∧ (HandleWriteRequest [102] ⟨fun _ => none, 1048576⟩
        ([] ++ [.datagram (sendDataResponse [97] 1)])).sent
        = (HandleWriteRequest [102] ⟨fun _ => none, 1048576⟩ []).sent
            ++ [sendErrorResponse 3 (strBytes "Disk is full")]
    ∧ (HandleWriteRequest [102] ⟨fun _ => none, 1048576⟩
        ([] ++ [.datagram (sendDataResponse [97] 1)])).srv.cacheSize
        = (HandleWriteRequest [102] ⟨fun _ => none, 1048576⟩ []).srv.cacheSize
    ∧ (∀ k, k ≠ [102] →
        (HandleWriteRequest [102] ⟨fun _ => none, 1048576⟩
          ([] ++ [.datagram (sendDataResponse [97] 1)])).srv.fileCache k
          = (HandleWriteRequest [102] ⟨fun _ => none, 1048576⟩ []).srv.fileCache k)
    ∧ ∃ f f', (HandleWriteRequest [102] ⟨fun _ => none, 1048576⟩ []).srv.fileCache [102]
          = some f
        ∧ (HandleWriteRequest [102] ⟨fun _ => none, 1048576⟩
            ([] ++ [.datagram (sendDataResponse [97] 1)])).srv.fileCache [102] = some f'
        ∧ f'.writing = false ∧ f'.completed = false ∧ f'.fileChunks = f.fileChunks :=
  write_capacity_rejection [102] ⟨fun _ => none, 1048576⟩ [] ⟨1, 0, 0⟩
    (sendDataResponse [97] 1) { opcode := DATA, blockNum := 1, data := [97] }
    rfl (by decide) (by decide) (by decide) (by decide)

/-- C10: a write request for a file whose entry is being written (writing=true,
completed=false) or is completed gets exactly one response, an Error with code
FILE_EXISTS (6), no acknowledgment, and the store is left as it was, whatever
the client sends afterwards. -/
theorem write_conflict (filename : List Byte) (srv : Server) (f : File) (evs : List Recv)
    (hentry : srv.fileCache filename = some f)
    (hbusy : (f.writing = true ∧ f.completed = false) ∨ f.completed = true) :
    (∃ msg, HandleWriteRequest filename srv evs
        = ⟨srv, [sendErrorResponse 6 msg], .returned⟩)
    ∧ ∀ n, sendAckResponse n ∉ (HandleWriteRequest filename srv evs).sent := by
  have key : ∃ msg, HandleWriteRequest filename srv evs
      = ⟨srv, [sendErrorResponse 6 msg], .returned⟩ := by
    unfold HandleWriteRequest
    simp only [hentry]
    rcases hbusy with ⟨hw, hc⟩ | hc
    · exact ⟨strBytes "File is currently being written", by simp [hw, hc, FILE_EXISTS]⟩
    · exact ⟨strBytes "File already exists on server", by simp [hc, FILE_EXISTS]⟩
  refine ⟨key, fun n hn => ?_⟩
  obtain ⟨msg, hmsg⟩ := key
  rw [hmsg] at hn
  simp only [List.mem_singleton] at hn
  have h2 : (sendAckResponse n)[1]? = (sendErrorResponse 6 msg)[1]? := by rw [hn]
  simp [sendAckResponse, sendErrorResponse, PutUint16, ACK, ERR] at h2

theorem write_conflict_witness :
    (∃ msg, HandleWriteRequest [102]
        (Server.empty.setEntry [102] (some ⟨true, false, fun _ => none⟩)) []
        = ⟨Server.empty.setEntry [102] (some ⟨true, false, fun _ => none⟩),
            [sendErrorResponse 6 msg], .returned⟩)
    ∧ ∀ n, sendAckResponse n ∉ (HandleWriteRequest [102]
        (Server.empty.setEntry [102] (some ⟨true, false, fun _ => none⟩)) []).sent :=
  write_conflict [102] (Server.empty.setEntry [102] (some ⟨true, false, fun _ => none⟩))
    ⟨true, false, fun _ => none⟩ [] rfl (Or.inr rfl)

/-! ## Size of the stored chunks -/

theorem length_makeCopy (n : Nat) (src : List Byte) : (makeCopy n src).length = n := by
  simp only [makeCopy, List.length_append, List.length_take, List.length_replicate]
  omega

theorem ChunksBounded_setEntry (srv : Server) (filename : List Byte) (e : Option File)
    (h : ChunksBounded srv) (he : ∀ f, e = some f → FileBounded f) :
    ChunksBounded (srv.setEntry filename e) := by
  intro k f hk
  by_cases hkf : k = filename
  · subst hkf
    rw [setEntry_same] at hk
    exact he f hk
  · rw [setEntry_other _ _ _ _ hkf] at hk
    exact h k f hk

theorem writeAbort_bounded (filename : List Byte) (srv : Server) (errorCode : Nat)
    (errorMessage : List Byte) (h : ChunksBounded srv) :
    ChunksBounded (writeAbort filename srv errorCode errorMessage).srv := by
  unfold writeAbort
  cases hf : srv.fileCache filename with
  | none => exact h
  | some f =>
    refine ChunksBounded_setEntry _ _ _ h (fun f' hf' => ?_)
    cases hf'
    exact h filename f hf

theorem writeFinish_bounded (filename : List Byte) (srv : Server) (bytesReceived : Nat)
    (sent : List (List Byte)) (h : ChunksBounded srv) :
    ChunksBounded (writeFinish filename srv bytesReceived sent).srv := by
  unfold writeFinish
  cases hf : srv.fileCache filename with
  | none => simpa only [hf] using h
  | some f =>
    simp only [hf]
    refine ChunksBounded_setEntry _ _ _ h (fun f' hf' => ?_)
    cases hf'
    exact h filename f hf

/-- One iteration of the write loop keeps every stored chunk within the size of
the receive buffer less the four header bytes. -/
theorem writeStep_bounded (filename : List Byte) (srv : Server) (loc : WriteLocals)
    (ev : Recv) (h : ChunksBounded srv) :
    ChunksBounded (writeStep filename srv loc ev).srv := by
  cases ev with
  | err => exact writeAbort_bounded filename srv _ _ h
  | datagram d =>
    have hlen : (d.take BUFFER_SIZE).length ≤ BUFFER_SIZE := List.length_take_le _ _
    unfold writeStep
    simp only
    generalize d.take BUFFER_SIZE = buffer at hlen ⊢
    by_cases h1 : loc.retries + 1 > 5
    · simp only [h1, if_true]
      exact writeAbort_bounded filename srv _ _ h
    · simp only [h1, if_false]
      cases hreq : NewRequest buffer buffer.length with
      | none => exact h
      | some request =>
        simp only
        by_cases h2 : request.opcode = ERR ∨ request.errorMessage.length > 0
        · simp only [h2, if_true]
          exact writeAbort_bounded filename srv _ _ h
        · simp only [h2, if_false]
          by_cases h3 : loc.bytesReceived + request.data.length + srv.cacheSize > MAX_CACHE_SIZE
          · simp only [h3, if_true]
            exact writeAbort_bounded filename srv _ _ h
          · simp only [h3, if_false]
            by_cases h4 : request.opcode = DATA ∧ request.blockNum = loc.blockNumber
            · simp only [h4, and_self, if_true]
              cases hf : srv.fileCache filename with
              | none => exact h
              | some f =>
                simp only
                by_cases h5 : buffer.length < 4
                · simp only [h5, if_true]
                  exact h
                · simp only [h5, if_false]
                  have hb : ChunksBounded (srv.setEntry filename
                      (some (f.putChunk loc.blockNumber
                        (makeCopy (buffer.length - 4) request.data)))) := by
                    refine ChunksBounded_setEntry _ _ _ h (fun f' hf' => ?_)
                    cases hf'
                    intro b c hc
                    simp only [File.putChunk] at hc
                    by_cases hbk : b = loc.blockNumber
                    · simp only [hbk, if_true, Option.some.injEq] at hc
                      rw [← hc, length_makeCopy]
                      omega
                    · simp only [hbk, if_false] at hc
                      exact h filename f hf b c hc
                  by_cases h6 : request.data.length < BLOCKSIZE
                  · simp only [h6, if_true]
                    exact writeFinish_bounded filename _ _ _ hb
                  · simp only [h6, if_false]
                    exact hb
            · simp only [h4, if_false]
              by_cases h6 : request.data.length < BLOCKSIZE
              · simp only [h6, if_true]
                exact writeFinish_bounded filename _ _ _ h
              · simp only [h6, if_false]
                exact h

theorem writeLoop_bounded (filename : List Byte) :
    ∀ (evs : List Recv) (srv : Server) (loc : WriteLocals), ChunksBounded srv →
      ChunksBounded (writeLoop filename srv loc evs).srv := by
  intro evs
  induction evs with
  | nil => intro srv loc h; exact h
  | cons e tl ih =>
    intro srv loc h
    have hs := writeStep_bounded filename srv loc e h
    simp only [writeLoop]
    split
    · exact ih _ _ hs
    · exact hs

theorem HandleWriteRequest_bounded (filename : List Byte) (srv : Server) (evs : List Recv)
    (h : ChunksBounded srv) : ChunksBounded (HandleWriteRequest filename srv evs).srv := by
  have hfresh : ∀ s : Server, ChunksBounded s →
      ChunksBounded (s.setEntry filename (some ⟨false, true, fun _ => none⟩)) := by
    intro s hs
    refine ChunksBounded_setEntry _ _ _ hs (fun f' hf' => ?_)
    cases hf'
    intro b c hc
    cases hc
  unfold HandleWriteRequest
  cases hf : srv.fileCache filename with
  | none => exact writeLoop_bounded filename evs _ _ (hfresh srv h)
  | some f =>
    simp only
    split
    · exact h
    · split
      · exact h
      · exact writeLoop_bounded filename evs _ _
          (hfresh _ (ChunksBounded_setEntry _ _ _ h (fun f' hf' => by cases hf')))

theorem runWrites_bounded : ∀ sessions : List (List Byte × List Recv),
    ChunksBounded (runWrites sessions) := by
  intro sessions
  induction sessions with
  | nil =>
    intro k f hk
    cases hk
  | cons s rest ih => exact HandleWriteRequest_bounded s.1 (runWrites rest) s.2 ih

theorem Uint16_sendErrorResponse (errorCode : Nat) (errorMessage : List Byte) :
    Uint16 (sendErrorResponse errorCode errorMessage) = some ERR := by
  unfold sendErrorResponse
  rw [List.append_assoc, List.append_assoc]
  exact Uint16_PutUint16 ERR (by decide) _

/-- Every Data message of the read loop carries a stored chunk. -/
theorem readLoop_data_bounded (filename : List Byte) (srv : Server) (h : ChunksBounded srv) :
    ∀ (evs : List Recv) (blockNumber : Nat) (m : List Byte),
      m ∈ (readLoop filename srv blockNumber evs).sent → Uint16 m = some DATA →
      m.length ≤ BUFFER_SIZE := by
  have hdata : ∀ (f : File) (blockNumber : Nat) (bytes : List Byte),
      srv.fileCache filename = some f → f.fileChunks blockNumber = some bytes →
      (sendDataResponse bytes blockNumber).length ≤ BUFFER_SIZE := by
    intro f blockNumber bytes hf hb
    have := h filename f hf blockNumber bytes hb
    rw [length_sendDataResponse]
    simp only [BUFFER_SIZE] at this ⊢
    omega
  have herr : ∀ (c : Nat) (msg m : List Byte), m = sendErrorResponse c msg →
      Uint16 m = some DATA → m.length ≤ BUFFER_SIZE := by
    intro c msg m hm hu
    rw [hm, Uint16_sendErrorResponse] at hu
    cases hu
  intro evs
  induction evs with
  | nil =>
    intro blockNumber m hm hu
    simp only [readLoop] at hm
    cases hf : srv.fileCache filename with
    | none => simp [hf] at hm
    | some f =>
      cases hb : f.fileChunks blockNumber with
      | none => simp [hf, hb] at hm
      | some bytes =>
        simp only [hf, hb, List.mem_singleton] at hm
        rw [hm]
        exact hdata f blockNumber bytes hf hb
  | cons ev tl ih =>
    intro blockNumber m hm hu
    simp only [readLoop] at hm
    cases hf : srv.fileCache filename with
    | none => simp [hf] at hm
    | some f =>
      cases hb : f.fileChunks blockNumber with
      | none => simp [hf, hb] at hm
      | some bytes =>
        have hd := hdata f blockNumber bytes hf hb
        simp only [hf, hb] at hm
        cases ev with
        | err =>
          simp only [List.mem_cons, List.mem_singleton, List.not_mem_nil, or_false] at hm
          rcases hm with hm | hm
          · rw [hm]; exact hd
          · exact herr _ _ m hm hu
        | datagram d =>
          simp only at hm
          generalize d.take BUFFER_SIZE = buffer at hm
          cases hreq : NewRequest buffer buffer.length with
          | none =>
            simp only [hreq, List.mem_singleton] at hm
            rw [hm]; exact hd
          | some request =>
            simp only [hreq] at hm
            by_cases h1 : request.opcode = ACK ∧ request.blockNum = blockNumber
            · simp only [h1, and_self, if_true, List.mem_cons] at hm
              rcases hm with hm | hm
              · rw [hm]; exact hd
              · exact ih _ m hm hu
            · simp only [h1, if_false] at hm
              by_cases h2 : request.opcode = ERR
              · simp only [h2, if_true, List.mem_cons, List.mem_singleton, List.not_mem_nil,
                  or_false] at hm
                rcases hm with hm | hm
                · rw [hm]; exact hd
                · exact herr _ _ m hm hu
              · simp only [h2, if_false, List.mem_singleton] at hm
                rw [hm]; exact hd

/-! ## Codec claims, continued -/

/-- C13: for a filename `f` and a mode `m` without NUL bytes,
`parseReadWriteRequest` on the body `f, NUL, m, NUL` returns `(f, m)`, and
`NewRequest` on opcode READ or WRITE followed by that body returns a request
with that opcode and filename `f`. -/
theorem request_parsing (f m : List Byte) (hf : (0 : Byte) ∉ f) (hm : (0 : Byte) ∉ m) :
    parseReadWriteRequest (f ++ [0] ++ m ++ [0]) = (f, m)
    ∧ ∀ opcode, opcode = READ ∨ opcode = WRITE →
        NewRequest (PutUint16 opcode ++ (f ++ [0] ++ m ++ [0]))
            (PutUint16 opcode ++ (f ++ [0] ++ m ++ [0])).length
          = some { opcode := opcode, filename := f } := by
  have hparse := parseReadWriteRequest_two_strings f m hf hm
  refine ⟨hparse, fun opcode hop => ?_⟩
  have hlt : opcode < 65536 := by
    rcases hop with h | h <;> rw [h] <;> decide
  unfold NewRequest
  rw [Uint16_PutUint16 opcode hlt, List.take_length, drop_PutUint16]
  have h1 : ¬ ((PutUint16 opcode ++ (f ++ [0] ++ m ++ [0])).length < 2
      ∨ (PutUint16 opcode ++ (f ++ [0] ++ m ++ [0])).length
        < (PutUint16 opcode ++ (f ++ [0] ++ m ++ [0])).length) := by
    simp [PutUint16]
  simp only [h1, if_false, hop, if_true, hparse]

theorem request_parsing_witness :
    parseReadWriteRequest (strBytes "a.txt" ++ [0] ++ strBytes "octet" ++ [0])
      = (strBytes "a.txt", strBytes "octet")
    ∧ ∀ opcode, opcode = READ ∨ opcode = WRITE →
        NewRequest (PutUint16 opcode ++ (strBytes "a.txt" ++ [0] ++ strBytes "octet" ++ [0]))
            (PutUint16 opcode ++ (strBytes "a.txt" ++ [0] ++ strBytes "octet" ++ [0])).length
          = some { opcode := opcode, filename := strBytes "a.txt" } :=
  request_parsing (strBytes "a.txt") (strBytes "octet") (by decide) (by decide)

/-- C14: a read/write request body with three or more NUL bytes makes
`parseReadWriteRequest` return the empty filename and the empty mode. -/
theorem request_three_nul (bodyData : List Byte) (h : 3 ≤ bodyData.count 0) :
    parseReadWriteRequest bodyData = ([], []) :=
  parseReadWriteLoop_three_nul bodyData bodyData 0 {} (by decide)
    (by simpa using h)

theorem request_three_nul_witness :
    parseReadWriteRequest [97, 0, 98, 0, 99, 0] = ([], []) :=
  request_three_nul [97, 0, 98, 0, 99, 0] (by decide)

/-- C15: for every 16-bit error code `c` and message `msg` without NUL,
`NewRequest` on the bytes ERR, `c`, `msg`, NUL returns a request with opcode
ERR, errorCode `c` and errorMessage `msg`. -/
theorem error_decoding (c : Nat) (msg : List Byte) (hc : c < 65536)
    (_hmsg : (0 : Byte) ∉ msg) :
    NewRequest (PutUint16 ERR ++ PutUint16 c ++ msg ++ [0])
        (PutUint16 ERR ++ PutUint16 c ++ msg ++ [0]).length
      = some { opcode := ERR, errorCode := c, errorMessage := msg } :=
  NewRequest_error_nul c hc msg

theorem error_decoding_witness :
    NewRequest (PutUint16 ERR ++ PutUint16 DISK_FULL ++ strBytes "456789111111111" ++ [0])
        (PutUint16 ERR ++ PutUint16 DISK_FULL ++ strBytes "456789111111111" ++ [0]).length
      = some { opcode := ERR, errorCode := DISK_FULL,
               errorMessage := strBytes "456789111111111" } :=
  error_decoding DISK_FULL (strBytes "456789111111111") (by decide) (by decide)

/-- C16: for every block number `n` in 0..65535, `sendAckResponse` writes the
four bytes 0, 4, high byte of `n`, low byte of `n`, and `NewRequest` on them
returns a request with opcode ACK and blockNum `n`. -/
theorem ack_roundtrip (n : Nat) (hn : n < 65536) :
    (sendAckResponse n).map Fin.val = [0, 4, n / 256, n % 256]
    ∧ NewRequest (sendAckResponse n) (sendAckResponse n).length
        = some { opcode := ACK, blockNum := n } := by
  refine ⟨?_, NewRequest_ack n hn⟩
  simp only [sendAckResponse, PutUint16, ACK, List.cons_append, List.nil_append, List.map_cons,
    List.map_nil]
  have : n / 256 % 256 = n / 256 := Nat.mod_eq_of_lt (by omega)
  simp [this]

theorem ack_roundtrip_witness :
    (sendAckResponse 50).map Fin.val = [0, 4, 50 / 256, 50 % 256]
    ∧ NewRequest (sendAckResponse 50) (sendAckResponse 50).length
        = some { opcode := ACK, blockNum := 50 } :=
  ack_roundtrip 50 (by decide)

/-- C17: for every block number `n` in 0..65535 and payload `p` of at most 512
bytes, `NewRequest` on the bytes `sendDataResponse` writes for `(p, n)` returns a
request with opcode DATA, blockNum `n` and data `p`; the datagram has
`4 + len(p)` bytes. -/
theorem data_roundtrip (n : Nat) (p : List Byte) (hn : n < 65536) (_hp : p.length ≤ 512) :
    NewRequest (sendDataResponse p n) (sendDataResponse p n).length
        = some { opcode := DATA, blockNum := n, data := p }
    ∧ (sendDataResponse p n).length = 4 + p.length := by
  refine ⟨NewRequest_data n hn p, ?_⟩
  rw [length_sendDataResponse, Nat.add_comm]

theorem data_roundtrip_witness :
    NewRequest (sendDataResponse [104, 105] 7) (sendDataResponse [104, 105] 7).length
        = some { opcode := DATA, blockNum := 7, data := [104, 105] }
    ∧ (sendDataResponse [104, 105] 7).length = 4 + [(104 : Byte), 105].length :=
  data_roundtrip 7 [104, 105] (by decide) (by decide)

/-! ## Session claims, continued -/

set_option maxRecDepth 100000 in
/-- C11, the defect: one write session from the empty store in which the client
retransmits the full block 1 before sending the short block 2.  The file is
completed with 512 + 1 = 513 stored bytes, but the counter is 1025: the ignored
duplicate was added to it. -/
theorem counter_counts_ignored_duplicate :
    (runWrites [([102], [.datagram (sendDataResponse (List.replicate 512 7) 1),
        .datagram (sendDataResponse (List.replicate 512 7) 1),
        .datagram (sendDataResponse [97] 2)])]).cacheSize = 1025
    ∧ ∃ g, (runWrites [([102], [.datagram (sendDataResponse (List.replicate 512 7) 1),
        .datagram (sendDataResponse (List.replicate 512 7) 1),
        .datagram (sendDataResponse [97] 2)])]).fileCache [102] = some g
      ∧ g.completed = true
      ∧ ∀ k, g.fileChunks k
          = if k = 2 then some [97] else if k = 1 then some (List.replicate 512 7) else none :=
  ⟨rfl, _, rfl, rfl, fun _ => rfl⟩

/-- C18: a read request for a file with no entry, or whose entry is not
completed, gets exactly one response, Error NOT_FOUND (1); no Data message is
sent and the store is unchanged, whatever the client sends afterwards. -/
theorem read_missing_file (filename : List Byte) (srv : Server) (evs : List Recv)
    (hmiss : srv.fileCache filename = none
      ∨ ∃ f, srv.fileCache filename = some f ∧ f.completed = false) :
    HandleReadRequest filename srv evs
        = ⟨srv, [sendErrorResponse 1 (strBytes "File not found on server")], .returned⟩
    ∧ ∀ p n, sendDataResponse p n ∉ (HandleReadRequest filename srv evs).sent := by
  have key : HandleReadRequest filename srv evs
      = ⟨srv, [sendErrorResponse 1 (strBytes "File not found on server")], .returned⟩ := by
    unfold HandleReadRequest
    rcases hmiss with h | ⟨f, h, hc⟩
    · simp [h, NOT_FOUND]
    · simp [h, hc, NOT_FOUND]
  refine ⟨key, fun p n hn => ?_⟩
  rw [key] at hn
  simp only [List.mem_singleton] at hn
  have h2 : (sendDataResponse p n)[1]?
      = (sendErrorResponse 1 (strBytes "File not found on server"))[1]? := by rw [hn]
  simp [sendDataResponse, sendErrorResponse, PutUint16, DATA, ERR] at h2

theorem read_missing_file_witness :
    HandleReadRequest [102] Server.empty [.datagram (sendAckResponse 1)]
        = ⟨Server.empty, [sendErrorResponse 1 (strBytes "File not found on server")],
            .returned⟩
    ∧ ∀ p n, sendDataResponse p n
        ∉ (HandleReadRequest [102] Server.empty [.datagram (sendAckResponse 1)]).sent :=
  read_missing_file [102] Server.empty [.datagram (sendAckResponse 1)] (Or.inl rfl)

/-- C19: when the entry of a file was left with writing=false and
completed=false by an aborted write session, a new write request for that file
is accepted: its first response is Ack(0), and before any datagram arrives the
session is waiting for block 1 with the entry replaced by a fresh one
(writing=true, completed=false, no chunk). -/
theorem reclaim_after_abort (filename : List Byte) (srv : Server) (f : File)
    (evs : List Recv) (hentry : srv.fileCache filename = some f)
    (hw : f.writing = false) (hc : f.completed = false) :
    (∃ rest, (HandleWriteRequest filename srv evs).sent = sendAckResponse 0 :: rest)
    ∧ HandleWriteRequest filename srv []
        = ⟨srv.setEntry filename (some ⟨false, true, fun _ => none⟩), [sendAckResponse 0],
            .awaiting ⟨1, 0, 0⟩⟩
    ∧ ∃ g, (HandleWriteRequest filename srv []).srv.fileCache filename = some g
        ∧ g.writing = true ∧ g.completed = false ∧ ∀ k, g.fileChunks k = none := by
  have hfree : ∀ f', srv.fileCache filename = some f' →
      f'.writing = false ∧ f'.completed = false := by
    intro f' hf'
    rw [hentry] at hf'
    cases hf'
    exact ⟨hw, hc⟩
  refine ⟨?_, ?_, ⟨false, true, fun _ => none⟩, ?_, rfl, rfl, fun _ => rfl⟩
  · rw [HandleWriteRequest_started filename srv hfree evs]
    exact ⟨_, rfl⟩
  · rw [HandleWriteRequest_started filename srv hfree []]
    rfl
  · rw [HandleWriteRequest_started filename srv hfree []]
    exact setEntry_same _ _ _

set_option maxRecDepth 100000 in
theorem reclaim_after_abort_witness :
    (∃ rest, (HandleWriteRequest [102]
        (HandleWriteRequest [102] Server.empty
          [.datagram (sendDataResponse (List.replicate 512 7) 1), .err]).srv
        [.datagram (sendDataResponse [97] 1)]).sent = sendAckResponse 0 :: rest)
    ∧ HandleWriteRequest [102]
        (HandleWriteRequest [102] Server.empty
          [.datagram (sendDataResponse (List.replicate 512 7) 1), .err]).srv []
        = ⟨(HandleWriteRequest [102] Server.empty
            [.datagram (sendDataResponse (List.replicate 512 7) 1), .err]).srv.setEntry [102]
              (some ⟨false, true, fun _ => none⟩), [sendAckResponse 0],
            .awaiting ⟨1, 0, 0⟩⟩
    ∧ ∃ g, (HandleWriteRequest [102]
        (HandleWriteRequest [102] Server.empty
          [.datagram (sendDataResponse (List.replicate 512 7) 1), .err]).srv
        []).srv.fileCache [102] = some g
        ∧ g.writing = true ∧ g.completed = false ∧ ∀ k, g.fileChunks k = none :=
  reclaim_after_abort [102]
    (HandleWriteRequest [102] Server.empty
      [.datagram (sendDataResponse (List.replicate 512 7) 1), .err]).srv
    _ [.datagram (sendDataResponse [97] 1)] rfl rfl rfl

set_option maxRecDepth 100000 in
/-- C12 as stated is refuted: a write session that receives Data(1, p) with a
payload of 1020 bytes records it as chunk 1, and after the short block 2 a read
session sends that chunk in one Data message of 1020 payload bytes. -/
theorem chunk_of_1020_bytes_recorded :
    (∃ g, (runWrites [([102], [.datagram (sendDataResponse (List.replicate 1020 7) 1),
          .datagram (sendDataResponse [97] 2)])]).fileCache [102] = some g
        ∧ g.fileChunks 1 = some (List.replicate 1020 7))
    ∧ (List.replicate 1020 (7 : Byte)).length = 1020
    ∧ (HandleReadRequest [102]
        (runWrites [([102], [.datagram (sendDataResponse (List.replicate 1020 7) 1),
          .datagram (sendDataResponse [97] 2)])]) []).sent
        = [sendDataResponse (List.replicate 1020 7) 1] :=
  ⟨⟨_, rfl, rfl⟩, List.length_replicate _ _, rfl⟩

/-- C12 amended: in every store reached by write sessions run one after the
other from the empty store, whatever datagrams they receive, every recorded
chunk has at most 1020 bytes (the 1024-byte read buffer less the 4-byte
header); hence every Data message a read session sends has at most 1020 bytes
of payload after its 4-byte header. -/
theorem chunk_size_bound (sessions : List (List Byte × List Recv)) (filename : List Byte)
    (evs : List Recv) :
    (∀ k f b c, (runWrites sessions).fileCache k = some f → f.fileChunks b = some c →
        c.length ≤ 1020)
    ∧ ∀ m, m ∈ (HandleReadRequest filename (runWrites sessions) evs).sent →
        Uint16 m = some DATA → m.length ≤ 4 + 1020 := by
  have hb := runWrites_bounded sessions
  refine ⟨fun k f b c hk hc => hb k f hk b c hc, fun m hm hu => ?_⟩
  show m.length ≤ BUFFER_SIZE
  unfold HandleReadRequest at hm
  cases hf : (runWrites sessions).fileCache filename with
  | none =>
    simp only [hf, List.mem_singleton] at hm
    rw [hm, Uint16_sendErrorResponse] at hu
    cases hu
  | some f =>
    simp only [hf] at hm
    by_cases hc : f.completed = true
    · simp only [hc, not_true_eq_false, if_false] at hm
      exact readLoop_data_bounded filename _ hb evs 1 m hm hu
    · have hc' : f.completed = false := by simpa using hc
      simp only [hc', Bool.false_eq_true, not_false_eq_true, if_true, List.mem_singleton] at hm
      rw [hm, Uint16_sendErrorResponse] at hu
      cases hu

theorem chunk_size_bound_witness :
    (∀ k f b c, (runWrites [([102], [.datagram (sendDataResponse (List.replicate 1020 7) 1),
          .datagram (sendDataResponse [97] 2)])]).fileCache k = some f →
        f.fileChunks b = some c → c.length ≤ 1020)
    ∧ ∀ m, m ∈ (HandleReadRequest [102]
          (runWrites [([102], [.datagram (sendDataResponse (List.replicate 1020 7) 1),
            .datagram (sendDataResponse [97] 2)])]) []).sent →
        Uint16 m = some DATA → m.length ≤ 4 + 1020 :=
  chunk_size_bound [([102], [.datagram (sendDataResponse (List.replicate 1020 7) 1),
    .datagram (sendDataResponse [97] 2)])] [102] []

/-! ## The retry counter of the write loop -/

/-- The loop over `evs` followed by further receive results. -/
theorem writeLoop_append (filename : List Byte) (more : List Recv) :
    ∀ (evs : List Recv) (srv : Server) (loc loc' : WriteLocals),
      (writeLoop filename srv loc evs).status = .awaiting loc' →
      writeLoop filename srv loc (evs ++ more)
        = ⟨(writeLoop filename (writeLoop filename srv loc evs).srv loc' more).srv,
            (writeLoop filename srv loc evs).sent
              ++ (writeLoop filename (writeLoop filename srv loc evs).srv loc' more).sent,
            (writeLoop filename (writeLoop filename srv loc evs).srv loc' more).status⟩ := by
  intro evs
  induction evs with
  | nil =>
    intro srv loc loc' h
    simp only [writeLoop, Status.awaiting.injEq] at h
    subst h
    simp [writeLoop]
  | cons e tl ih =>
    intro srv loc loc' h
    simp only [List.cons_append, writeLoop, List.append_eq] at h ⊢
    split at h
    · rename_i loc1 hst
      simp only [hst] at h ⊢
      rw [ih _ _ _ h]
      simp
    · rename_i hne
      exact absurd h (hne loc')

/-- A running write session followed by further receive results. -/
theorem HandleWriteRequest_append (filename : List Byte) (srv : Server) (evs more : List Recv)
    (loc : WriteLocals) (h : (HandleWriteRequest filename srv evs).status = .awaiting loc) :
    HandleWriteRequest filename srv (evs ++ more)
      = ⟨(writeLoop filename (HandleWriteRequest filename srv evs).srv loc more).srv,
          (HandleWriteRequest filename srv evs).sent
            ++ (writeLoop filename (HandleWriteRequest filename srv evs).srv loc more).sent,
          (writeLoop filename (HandleWriteRequest filename srv evs).srv loc more).status⟩ := by
  have hfree := HandleWriteRequest_awaiting_free filename srv evs loc h
  rw [HandleWriteRequest_started filename srv hfree] at h ⊢
  rw [HandleWriteRequest_started filename srv hfree]
  simp only at h ⊢
  rw [writeLoop_append filename more evs _ _ _ h]
  simp

/-- Full-size Data datagrams with another block number, as long as the retry
counter stays within 5, change only the byte and retry counters. -/
theorem writeLoop_ignored (filename : List Byte) (srv : Server) (n : Nat) :
    ∀ (ign : List (Nat × List Byte)) (r t : Nat),
      (∀ x ∈ ign, x.1 < 65536 ∧ x.1 ≠ n ∧ x.2.length = BLOCKSIZE) →
      t + ign.length ≤ 5 →
      r + BLOCKSIZE * ign.length + srv.cacheSize ≤ MAX_CACHE_SIZE →
      writeLoop filename srv ⟨n, r, t⟩ (dataEventsOf ign)
        = ⟨srv, [], .awaiting ⟨n, r + BLOCKSIZE * ign.length, t + ign.length⟩⟩ := by
  intro ign
  induction ign with
  | nil =>
    intro r t _ _ _
    simp [dataEventsOf, writeLoop]
  | cons x tl ih =>
    intro r t hign ht hcap
    obtain ⟨hx1, hx2, hx3⟩ := hign x (by simp)
    have htl : ∀ y ∈ tl, y.1 < 65536 ∧ y.1 ≠ n ∧ y.2.length = BLOCKSIZE :=
      fun y hy => hign y (by simp [hy])
    simp only [List.length_cons] at ht hcap
    simp only [BLOCKSIZE] at hx3 hcap
    have hstep := writeStep_ignore_full filename srv n r t x.1 x.2 hx1 hx2
      (by simp only [BLOCKSIZE]; omega) (by omega) (by omega) (by omega)
    have hrec := ih (r + x.2.length) (t + 1) htl (by omega)
      (by simp only [BLOCKSIZE]; omega)
    simp only [dataEventsOf, List.map_cons] at hrec ⊢
    rw [writeLoop_cons_awaiting _ _ _ _ _ _ _ _ hstep, hrec]
    simp only [List.length_cons, List.append_nil, BLOCKSIZE, hx3]
    congr 3
    · omega
    · omega

/-- With the retry counter at 5 the next datagram, whatever it holds, ends the
session with the timeout Error. -/
theorem writeStep_retries_exhausted (filename : List Byte) (srv : Server) (f : File)
    (loc : WriteLocals) (d : List Byte) (hf : srv.fileCache filename = some f)
    (ht : 5 ≤ loc.retries) :
    writeStep filename srv loc (.datagram d)
      = ⟨srv.setEntry filename (some { f with writing := false }),
          [sendErrorResponse UNK (strBytes "Timeout during write operation")], .returned⟩ := by
  have h1 : loc.retries + 1 > 5 := by omega
  simp only [writeStep, h1, if_true, writeAbort, hf]

theorem writeLoop_singleton (filename : List Byte) (srv : Server) (loc : WriteLocals)
    (ev : Recv) : writeLoop filename srv loc [ev] = writeStep filename srv loc ev := by
  simp only [writeLoop]
  split
  · rename_i loc' h
    simp only [List.append_nil]
    rw [← h]
  · rfl

/-- The entry of a running write session is present, not completed and being written. -/
theorem HandleWriteRequest_awaiting_entry (filename : List Byte) (srv : Server)
    (evs : List Recv) (loc : WriteLocals)
    (h : (HandleWriteRequest filename srv evs).status = .awaiting loc) :
    ∃ f, (HandleWriteRequest filename srv evs).srv.fileCache filename = some f
      ∧ f.completed = false ∧ f.writing = true := by
  have hfree := HandleWriteRequest_awaiting_free filename srv evs loc h
  rw [HandleWriteRequest_started filename srv hfree] at h ⊢
  simp only at h ⊢
  obtain ⟨-, -, f, hf, hc, hw⟩ := writeLoop_awaiting filename evs _ _ _ _
    (setEntry_same srv filename (some ⟨false, true, fun _ => none⟩)) h
  exact ⟨f, hf, hc, hw⟩

/-- A running session with retry counter 0 that receives up to five full-size
Data datagrams with other block numbers and then one more datagram: the run is
that of the last datagram alone, met with the counters the ignored ones left. -/
theorem HandleWriteRequest_after_ignored (filename : List Byte) (srv : Server)
    (evs : List Recv) (n r : Nat) (ign : List (Nat × List Byte)) (last : Recv)
    (hrun : (HandleWriteRequest filename srv evs).status = .awaiting ⟨n, r, 0⟩)
    (hign : ∀ x ∈ ign, x.1 < 65536 ∧ x.1 ≠ n ∧ x.2.length = BLOCKSIZE)
    (hk : ign.length ≤ 5)
    (hcap : r + BLOCKSIZE * ign.length + (HandleWriteRequest filename srv evs).srv.cacheSize
      ≤ MAX_CACHE_SIZE) :
    HandleWriteRequest filename srv (evs ++ dataEventsOf ign ++ [last])
      = ⟨(writeStep filename (HandleWriteRequest filename srv evs).srv
            ⟨n, r + BLOCKSIZE * ign.length, ign.length⟩ last).srv,
          (HandleWriteRequest filename srv evs).sent
            ++ (writeStep filename (HandleWriteRequest filename srv evs).srv
                ⟨n, r + BLOCKSIZE * ign.length, ign.length⟩ last).sent,
          (writeStep filename (HandleWriteRequest filename srv evs).srv
            ⟨n, r + BLOCKSIZE * ign.length, ign.length⟩ last).status⟩ := by
  have h1 := writeLoop_ignored filename (HandleWriteRequest filename srv evs).srv n ign r 0
    hign (by omega) hcap
  rw [Nat.zero_add] at h1
  rw [List.append_assoc, HandleWriteRequest_append filename srv evs _ _ hrun,
    writeLoop_append filename [last] (dataEventsOf ign) _ _ _ (by rw [h1]), h1,
    writeLoop_singleton]
  simp

set_option maxRecDepth 100000 in
/-- C20 as stated is refuted at k = 5: a session awaiting block 1 that has
ignored five full-size Data(2, …) datagrams answers the following Data(1, p)
with the timeout Error; block 1 is neither recorded nor acknowledged. -/
theorem retry_budget_refuted :
    (HandleWriteRequest [102] Server.empty
        (dataEventsOf (List.replicate 5 (2, List.replicate 512 7))
          ++ [.datagram (sendDataResponse [97] 1)])).sent
      = [sendAckResponse 0, sendErrorResponse UNK (strBytes "Timeout during write operation")]
    ∧ ∃ g, (HandleWriteRequest [102] Server.empty
        (dataEventsOf (List.replicate 5 (2, List.replicate 512 7))
          ++ [.datagram (sendDataResponse [97] 1)])).srv.fileCache [102] = some g
      ∧ g.fileChunks 1 = none :=
  ⟨rfl, _, rfl, rfl⟩

/-- C20 amended: in a write session awaiting block `n` with retry counter 0
(just started, or just after an accepted block), after k ≤ 4 consecutive
ignored Data messages (other block number, 512-byte payload, total within
capacity) the message Data(n, p) is recorded as chunk `n` and acknowledged with
Ack(n), and the retry counter is back at 0 when the session goes on; after 5
consecutive ignored Data messages the next datagram, whatever it holds, makes
the session abort with an Error of code 0 ("Timeout during write operation"),
leaving the entry not completed and its chunks as they were. -/
theorem write_retry_budget (filename : List Byte) (srv : Server) (evs : List Recv)
    (n r : Nat) (ign : List (Nat × List Byte)) (p d : List Byte)
    (hrun : (HandleWriteRequest filename srv evs).status = .awaiting ⟨n, r, 0⟩)
    (hn : n < 65536)
    (hign : ∀ x ∈ ign, x.1 < 65536 ∧ x.1 ≠ n ∧ x.2.length = 512)
    (hp : p.length ≤ 512)
    (hcap : r + 512 * ign.length + p.length
      + (HandleWriteRequest filename srv evs).srv.cacheSize ≤ 1048576) :
    (ign.length ≤ 4 →
      (HandleWriteRequest filename srv
          (evs ++ dataEventsOf ign ++ [.datagram (sendDataResponse p n)])).sent
        = (HandleWriteRequest filename srv evs).sent ++ [sendAckResponse n]
      ∧ (∃ g, (HandleWriteRequest filename srv
            (evs ++ dataEventsOf ign ++ [.datagram (sendDataResponse p n)])).srv.fileCache
              filename = some g
          ∧ g.fileChunks n = some p)
      ∧ (p.length = 512 →
          (HandleWriteRequest filename srv
            (evs ++ dataEventsOf ign ++ [.datagram (sendDataResponse p n)])).status
            = .awaiting ⟨(n + 1) % 65536, r + 512 * ign.length + 512, 0⟩)
      ∧ (p.length < 512 →
          (HandleWriteRequest filename srv
            (evs ++ dataEventsOf ign ++ [.datagram (sendDataResponse p n)])).status
            = .returned))
    ∧ (ign.length = 5 →
      (HandleWriteRequest filename srv (evs ++ dataEventsOf ign ++ [.datagram d])).status
        = .returned
      ∧ (HandleWriteRequest filename srv (evs ++ dataEventsOf ign ++ [.datagram d])).sent
        = (HandleWriteRequest filename srv evs).sent
            ++ [sendErrorResponse 0 (strBytes "Timeout during write operation")]
      ∧ ∃ f g, (HandleWriteRequest filename srv evs).srv.fileCache filename = some f
          ∧ (HandleWriteRequest filename srv
              (evs ++ dataEventsOf ign ++ [.datagram d])).srv.fileCache filename = some g
          ∧ g.writing = false ∧ g.completed = false ∧ g.fileChunks = f.fileChunks) := by
  obtain ⟨f, hf, hc, -⟩ := HandleWriteRequest_awaiting_entry filename srv evs _ hrun
  have hign' : ∀ x ∈ ign, x.1 < 65536 ∧ x.1 ≠ n ∧ x.2.length = BLOCKSIZE := hign
  refine ⟨fun hk => ?_, fun hk => ?_⟩
  · rw [HandleWriteRequest_after_ignored filename srv evs n r ign _ hrun hign' (by omega)
      (by simp only [BLOCKSIZE, MAX_CACHE_SIZE]; omega)]
    by_cases hfull : p.length = 512
    · rw [writeStep_accept_full filename _ f n _ _ p hf hn (by simp only [BLOCKSIZE]; omega)
        (by omega) (by omega) (by simp only [BLOCKSIZE, MAX_CACHE_SIZE]; omega)]
      refine ⟨rfl, ⟨_, setEntry_same _ _ _, by simp [File.putChunk]⟩, fun _ => ?_,
        fun hlt => by omega⟩
      simp only [BLOCKSIZE, hfull]
    · have hshort : p.length < BLOCKSIZE := by simp only [BLOCKSIZE]; omega
      rw [writeStep_accept_last filename _ f n _ _ p hf hn hshort (by omega)
        (by simp only [BLOCKSIZE, MAX_CACHE_SIZE]; omega)]
      simp only [writeFinish, setEntry_same]
      exact ⟨trivial, ⟨_, rfl, by simp [File.putChunk]⟩,
        fun h512 => absurd h512 hfull, fun _ => trivial⟩
  · rw [HandleWriteRequest_after_ignored filename srv evs n r ign _ hrun hign' (by omega)
      (by simp only [BLOCKSIZE, MAX_CACHE_SIZE]; omega),
      writeStep_retries_exhausted filename _ f _ d hf (by simp only; omega)]
    exact ⟨rfl, rfl, f, _, hf, setEntry_same _ _ _, rfl, hc, rfl⟩

theorem write_retry_budget_witness :
    ([(2, List.replicate 512 (7 : Byte))].length ≤ 4 →
      (HandleWriteRequest [102] Server.empty
          ([] ++ dataEventsOf [(2, List.replicate 512 7)]
            ++ [.datagram (sendDataResponse [97] 1)])).sent
        = (HandleWriteRequest [102] Server.empty []).sent ++ [sendAckResponse 1]
      ∧ (∃ g, (HandleWriteRequest [102] Server.empty
            ([] ++ dataEventsOf [(2, List.replicate 512 7)]
              ++ [.datagram (sendDataResponse [97] 1)])).srv.fileCache [102] = some g
          ∧ g.fileChunks 1 = some [97])
      ∧ ([(97 : Byte)].length = 512 →
          (HandleWriteRequest [102] Server.empty
            ([] ++ dataEventsOf [(2, List.replicate 512 7)]
              ++ [.datagram (sendDataResponse [97] 1)])).status
            = .awaiting ⟨(1 + 1) % 65536,
                0 + 512 * [(2, List.replicate 512 (7 : Byte))].length + 512, 0⟩)
      ∧ ([(97 : Byte)].length < 512 →
          (HandleWriteRequest [102] Server.empty
            ([] ++ dataEventsOf [(2, List.replicate 512 7)]
              ++ [.datagram (sendDataResponse [97] 1)])).status
            = .returned))
    ∧ ([(2, List.replicate 512 (7 : Byte))].length = 5 →
      (HandleWriteRequest [102] Server.empty
          ([] ++ dataEventsOf [(2, List.replicate 512 7)] ++ [.datagram []])).status
        = .returned
      ∧ (HandleWriteRequest [102] Server.empty
          ([] ++ dataEventsOf [(2, List.replicate 512 7)] ++ [.datagram []])).sent
        = (HandleWriteRequest [102] Server.empty []).sent
            ++ [sendErrorResponse 0 (strBytes "Timeout during write operation")]
      ∧ ∃ f g, (HandleWriteRequest [102] Server.empty []).srv.fileCache [102] = some f
          ∧ (HandleWriteRequest [102] Server.empty
              ([] ++ dataEventsOf [(2, List.replicate 512 7)]
                ++ [.datagram []])).srv.fileCache [102] = some g
          ∧ g.writing = false ∧ g.completed = false ∧ g.fileChunks = f.fileChunks) :=
  write_retry_budget [102] Server.empty [] 1 0 [(2, List.replicate 512 7)] [97] [] rfl
    (by decide)
    (fun x hx => by
      rw [List.mem_singleton] at hx
      rw [hx]
      exact ⟨by decide, by decide, List.length_replicate _ _⟩)
    (by decide) (by decide)

end NickTftp
